import Mathlib

/-!
# COMA root directory (`src/src/coma/RootDirectory.cpp`)

A shallow embedding of the root directory of the COMA memory system: the
set-associative line table, the three processes `DoIncoming`, `DoRequests`,
`DoResponses`, the ingress handler `OnMessageReceived` and the DDR completion
callback `OnReadCompleted`.

Conventions of the embedding.

* A `Line*` is the index of the line in `m_lines`; `NULL` is `none`.
* A `Message*` is the message value; a queue of pointers is a list of
  messages, and a write through the pointer of a queued message is written
  back to the queue entry.
* A failed `assert`, a dereference of `NULL`, an access outside `m_lines` and
  a division by zero make the function return `none`.
* `unsigned int` token counts are naturals reduced modulo `2 ^ 32` where the
  code adds or narrows; addresses and indices are naturals.
* `COMMIT { ... }` runs its block when the step is committing. The macro is
  defined outside these sources; its condition is the field `committing` of
  an `Env`, so every statement holds for a committing run and for one that
  is not.
* The calls into code that is not part of these sources (the kernel buffers,
  the arbitrator, the ring, the DDR channel, `delete`) are answered by the
  `Env` and recorded in the trace fields `sent`, `memOps`, `deleted`.
-/

namespace COMA

/-- The `MINSPACE_SHORTCUT` constant. -/
def MINSPACE_SHORTCUT : Nat := 2

/-- The `MINSPACE_FORWARD` constant. -/
def MINSPACE_FORWARD : Nat := 1

/-- Number of values of an `unsigned int`. -/
def UINT_RANGE : Nat := 2 ^ 32

/-- The `LineState` enumeration of `RootDirectory.h`. -/
inductive LineState where
  | LINE_EMPTY
  | LINE_LOADING
  | LINE_FULL
  deriving DecidableEq, Repr

/-- The `Line` structure of `RootDirectory.h`. -/
structure Line where
  state : LineState
  tag : Nat
  tokens : Nat
  sender : Nat
  deriving DecidableEq, Repr

/-- Modelled from the spec: the declaration of `Message::Type` is not in the
sources; the five kinds are the ones the spec lists and the switch names, and
`OTHER` stands for any value that reaches the `default` label. -/
inductive MessageType where
  | REQUEST
  | REQUEST_DATA
  | REQUEST_DATA_TOKEN
  | EVICTION
  | UPDATE
  | OTHER
  deriving DecidableEq, Repr

/-- Modelled from the spec: `MemData` (payload bytes with a size), declared
outside the sources. -/
structure MemData where
  data : List Nat
  size : Nat
  deriving DecidableEq, Repr

/-- Modelled from the spec: the `Message` structure, declared outside the
sources; the fields are the ones `RootDirectory.cpp` reads and writes. -/
structure Message where
  type : MessageType
  address : Nat
  sender : Nat
  ignore : Bool
  data : MemData
  dirty : Bool
  tokens : Nat
  deriving DecidableEq, Repr

/-- An operation handed to the DDR channel `m_memory`. -/
inductive MemOp where
  | Read (address : Nat) (size : Nat)
  | Write (address : Nat) (data : List Nat) (size : Nat)
  deriving DecidableEq, Repr

/-- The `Result` of a process. -/
inductive Result where
  | FAILED
  | SUCCESS
  deriving DecidableEq, Repr

/-- Answers of the code outside the sources during one run of a step.
`committing` is the condition of the `COMMIT` macro, `grant` the result of
`p_lines.Invoke()`, `requestsRoom` and `responsesRoom` whether `Push` on
`m_requests` and `m_responses` accepts, `freeSlots` the free slots of the
outgoing ring buffer, `memReadOk` and `memWriteOk` the results of
`m_memory->Read` and `m_memory->Write`. -/
structure Env where
  committing : Bool
  grant : Bool
  requestsRoom : Bool
  responsesRoom : Bool
  freeSlots : Nat
  memReadOk : Bool
  memWriteOk : Bool
  deriving DecidableEq, Repr

/-- The members of `COMA::RootDirectory` (with `m_incoming` of its base
class), and three traces: the messages handed to the ring, the operations
handed to the DDR channel and the messages freed by `delete`. -/
structure RootDirectory where
  m_lines : List Line
  m_lineSize : Nat
  m_assoc : Nat
  m_sets : Nat
  m_numCaches : Nat
  m_incoming : List Message
  m_requests : List Message
  m_responses : List Message
  m_activeMsg : Option Message
  sent : List Message
  memOps : List MemOp
  deleted : List Message
  deriving DecidableEq, Repr

/-- The table after the constructor: `m_assoc * m_sets` lines, all
`LINE_EMPTY` (the other fields of a line are not initialised; `init` gives
them). -/
def RootDirectory.create (lineSize assoc sets numCaches : Nat) (init : Line) : RootDirectory :=
  { m_lines := List.replicate (assoc * numCaches * sets) { init with state := LineState.LINE_EMPTY }
    m_lineSize := lineSize
    m_assoc := assoc * numCaches
    m_sets := sets
    m_numCaches := numCaches
    m_incoming := []
    m_requests := []
    m_responses := []
    m_activeMsg := none
    sent := []
    memOps := []
    deleted := [] }

/-- A write through a `Line*`: the line at index `i` becomes `line`. -/
def setLine (d : RootDirectory) (i : Nat) (line : Line) : RootDirectory :=
  { d with m_lines := d.m_lines.set i line }

/-- Outcome of the scanning loop of `FindLine(MemAddr, bool)`: the early
`return line`, or the end of the loop with the value of `empty`. -/
inductive Scan where
  | found (index : Nat)
  | missed (empty : Option Nat)
  deriving DecidableEq, Repr

/-- The loop `for (i = 0; i < m_assoc; ++i)` of `FindLine(MemAddr, bool)`,
over the remaining values of `i`. -/
def scanSet (lines : List Line) (tag set : Nat) : List Nat → Option Nat → Option Scan
  | [], empty => some (Scan.missed empty)
  | i :: rest, empty =>
    match lines[set + i]? with
    | none => none
    | some line =>
      if line.state = LineState.LINE_EMPTY then scanSet lines tag set rest (some (set + i))
      else if line.tag = tag then some (Scan.found (set + i))
      else scanSet lines tag set rest empty

/-- The function `Line* FindLine(MemAddr address, bool check_only)`: the
returned pointer and the directory after the call. -/
def FindLine (d : RootDirectory) (address : Nat) (check_only : Bool) :
    Option (Option Nat × RootDirectory) :=
  if d.m_lineSize = 0 ∨ d.m_sets = 0 then none
  else
    let tag := (address / d.m_lineSize) / d.m_sets
    let set := ((address / d.m_lineSize) % d.m_sets) * d.m_assoc
    match scanSet d.m_lines tag set (List.range d.m_assoc) none with
    | none => none
    | some (Scan.found i) => some (some i, d)
    | some (Scan.missed empty) =>
      match empty with
      | some j =>
        if check_only then some (none, d)
        else
          match d.m_lines[j]? with
          | none => none
          | some line =>
            some (some j,
              setLine d j { line with tag := tag, state := LineState.LINE_EMPTY, tokens := 0 })
      | none => some (none, d)

/-- The loop of `const Line* FindLine(MemAddr) const`. -/
def scanSetConst (lines : List Line) (tag set : Nat) : List Nat → Option (Option Nat)
  | [] => some none
  | i :: rest =>
    match lines[set + i]? with
    | none => none
    | some line =>
      if line.state ≠ LineState.LINE_EMPTY ∧ line.tag = tag then some (some (set + i))
      else scanSetConst lines tag set rest

/-- The function `const Line* FindLine(MemAddr address) const`. -/
def FindLineConst (d : RootDirectory) (address : Nat) : Option (Option Nat) :=
  if d.m_lineSize = 0 ∨ d.m_sets = 0 then none
  else
    let tag := (address / d.m_lineSize) / d.m_sets
    let set := ((address / d.m_lineSize) % d.m_sets) * d.m_assoc
    scanSetConst d.m_lines tag set (List.range d.m_assoc)

/-- Modelled from the spec: `Buffer::Push` (kernel code outside the sources):
refused without effect when there is no room, and otherwise the item is
appended when the step is committing. -/
def bufferPush (committing room : Bool) (q : List Message) (msg : Message) :
    Bool × List Message :=
  if room then (true, if committing then q ++ [msg] else q) else (false, q)

/-- Modelled from the spec: `Buffer::Pop` (kernel code outside the sources):
the front item is removed when the step is committing. -/
def bufferPop (committing : Bool) (q : List Message) : List Message :=
  if committing then q.tail else q

/-- Modelled from the spec: `SendMessage(msg, min_space)` of the ring node
(outside the sources), `trySend(message, minFreeSlots) -> bool`: it fails
without effect unless the outgoing channel has `min_space` free slots, and
otherwise the message goes on the ring when the step is committing. -/
def SendMessage (d : RootDirectory) (e : Env) (msg : Message) (min_space : Nat) :
    Bool × RootDirectory :=
  if min_space ≤ e.freeSlots then
    (true, if e.committing then { d with sent := d.sent ++ [msg] } else d)
  else (false, d)

/-- Modelled from the spec: `m_memory->Read(address, size)`,
`issueRead(address, size) -> bool`. -/
def memoryRead (d : RootDirectory) (e : Env) (address size : Nat) : Bool × RootDirectory :=
  if e.memReadOk then
    (true, if e.committing then { d with memOps := d.memOps ++ [MemOp.Read address size] } else d)
  else (false, d)

/-- Modelled from the spec: `m_memory->Write(address, data, size)`,
`issueWrite(address, data, size) -> bool`. -/
def memoryWrite (d : RootDirectory) (e : Env) (address : Nat) (data : List Nat) (size : Nat) :
    Bool × RootDirectory :=
  if e.memWriteOk then
    (true, if e.committing then
      { d with memOps := d.memOps ++ [MemOp.Write address data size] } else d)
  else (false, d)

/-- The statement `delete msg`. -/
def deleteMsg (d : RootDirectory) (msg : Message) : RootDirectory :=
  { d with deleted := d.deleted ++ [msg] }

/-- The tail of `OnMessageReceived` after the switch ("Forward the
request"): the shortcut send, and the slow path when it is refused. -/
def forwardRequest (d : RootDirectory) (e : Env) (msg : Message) :
    Option (Bool × Message × RootDirectory) :=
  match SendMessage d e msg MINSPACE_SHORTCUT with
  | (true, d1) => some (true, msg, d1)
  | (false, d1) =>
    let msg1 := if e.committing then { msg with ignore := true } else msg
    match bufferPush e.committing e.requestsRoom d1.m_requests msg1 with
    | (false, _) => some (false, msg1, d1)
    | (true, q) => some (true, msg1, { d1 with m_requests := q })

/-- The dereference of the pointer a lookup returned, `line->...`: the index,
the line behind it and the directory after the lookup; `none` when the
lookup is undefined, when the pointer is `NULL` (the `assert(line != NULL)`
of two cases, the undefined `line->state` of the third), or when the index
is outside `m_lines`. -/
def deref (r : Option (Option Nat × RootDirectory)) : Option (Nat × Line × RootDirectory) :=
  match r with
  | some (some i, d1) =>
    match d1.m_lines[i]? with
    | some line => some (i, line, d1)
    | none => none
  | _ => none

/-- The `case Message::REQUEST` of `OnMessageReceived` after
`Line* line = FindLine(msg->address, false)`, with `line` the line at index
`i`. -/
def caseRequest (d1 : RootDirectory) (e : Env) (msg : Message) (i : Nat) (line : Line) :
    Option (Bool × Message × RootDirectory) :=
  if line.state = LineState.LINE_EMPTY then
    match bufferPush e.committing e.requestsRoom d1.m_requests msg with
    | (false, _) => some (false, msg, d1)
    | (true, q) =>
      let d2 := { d1 with m_requests := q }
      some (true, msg,
        if e.committing then
          setLine d2 i { line with state := LineState.LINE_LOADING, sender := msg.sender }
        else d2)
  else forwardRequest d1 e msg

/-- The `case Message::REQUEST_DATA` of `OnMessageReceived` after the
lookup. -/
def caseRequestData (d1 : RootDirectory) (e : Env) (msg : Message) (i : Nat) (line : Line) :
    Option (Bool × Message × RootDirectory) :=
  if line.state ≠ LineState.LINE_FULL then none
  else if 0 < line.tokens ∧ e.committing = true then
    forwardRequest (setLine d1 i { line with tokens := 0 }) e
      { msg with type := MessageType.REQUEST_DATA_TOKEN, tokens := line.tokens }
  else forwardRequest d1 e msg

/-- The `case Message::EVICTION` of `OnMessageReceived` after the lookup. -/
def caseEviction (d1 : RootDirectory) (e : Env) (msg : Message) (i : Nat) (line : Line) :
    Option (Bool × Message × RootDirectory) :=
  if line.state ≠ LineState.LINE_FULL then none
  else
    let tokens := (msg.tokens + line.tokens) % UINT_RANGE
    if d1.m_numCaches < tokens then none
    else if tokens < d1.m_numCaches then
      some (true, msg,
        if e.committing then
          deleteMsg (setLine d1 i { line with tokens := tokens }) msg
        else d1)
    else if msg.dirty then
      match bufferPush e.committing e.requestsRoom d1.m_requests msg with
      | (false, _) => some (false, msg, d1)
      | (true, q) =>
        let d2 := { d1 with m_requests := q }
        some (true, msg,
          if e.committing then setLine d2 i { line with state := LineState.LINE_EMPTY }
          else d2)
    else
      let d2 := if e.committing then deleteMsg d1 msg else d1
      some (true, msg,
        if e.committing then setLine d2 i { line with state := LineState.LINE_EMPTY }
        else d2)

/-- The function `bool OnMessageReceived(Message* msg)`: the returned
value, the message behind the pointer after the call, and the directory. -/
def OnMessageReceived (d : RootDirectory) (e : Env) (msg : Message) :
    Option (Bool × Message × RootDirectory) :=
  if e.grant = false then some (false, msg, d)
  else
    match msg.type with
    | MessageType.REQUEST =>
      if msg.data.size ≠ d.m_lineSize then none
      else
        match deref (FindLine d msg.address false) with
        | none => none
        | some (i, line, d1) => caseRequest d1 e msg i line
    | MessageType.REQUEST_DATA =>
      match deref (FindLine d msg.address true) with
      | none => none
      | some (i, line, d1) => caseRequestData d1 e msg i line
    | MessageType.EVICTION =>
      match deref (FindLine d msg.address true) with
      | none => none
      | some (i, line, d1) => caseEviction d1 e msg i line
    | MessageType.UPDATE => forwardRequest d e msg
    | MessageType.REQUEST_DATA_TOKEN => forwardRequest d e msg
    | MessageType.OTHER => none

/-- The process `Result DoIncoming()`. -/
def DoIncoming (d : RootDirectory) (e : Env) : Option (Result × RootDirectory) :=
  match d.m_incoming with
  | [] => none
  | msg :: rest =>
    match OnMessageReceived d e msg with
    | none => none
    | some (false, msg1, d1) => some (Result.FAILED, { d1 with m_incoming := msg1 :: rest })
    | some (true, msg1, d1) =>
      some (Result.SUCCESS, { d1 with m_incoming := bufferPop e.committing (msg1 :: rest) })

/-- The process `Result DoRequests()`. -/
def DoRequests (d : RootDirectory) (e : Env) : Option (Result × RootDirectory) :=
  match d.m_requests with
  | [] => none
  | msg :: rest =>
    if d.m_activeMsg ≠ none then some (Result.FAILED, d)
    else if msg.ignore then
      match bufferPush e.committing e.responsesRoom d.m_responses msg with
      | (false, _) => some (Result.FAILED, d)
      | (true, q) =>
        some (Result.SUCCESS,
          { d with m_responses := q, m_requests := bufferPop e.committing (msg :: rest) })
    else if msg.type = MessageType.REQUEST then
      match memoryRead d e msg.address d.m_lineSize with
      | (false, _) => some (Result.FAILED, d)
      | (true, d1) =>
        let d2 := if e.committing then { d1 with m_activeMsg := some msg } else d1
        some (Result.SUCCESS, { d2 with m_requests := bufferPop e.committing (msg :: rest) })
    else if msg.type ≠ MessageType.EVICTION then none
    else
      match memoryWrite d e msg.address msg.data.data msg.data.size with
      | (false, _) => some (Result.FAILED, d)
      | (true, d1) =>
        let d2 := if e.committing then deleteMsg d1 msg else d1
        some (Result.SUCCESS, { d2 with m_requests := bufferPop e.committing (msg :: rest) })

/-- The block `if (!msg->ignore) { ... }` of `DoResponses`: the message and
the directory after it. -/
def stampResponse (d : RootDirectory) (e : Env) (msg : Message) :
    Option (Message × RootDirectory) :=
  if msg.ignore = false then
    match deref (FindLine d msg.address true) with
    | none => none
    | some (i, line, d1) =>
      if line.state ≠ LineState.LINE_LOADING then none
      else if e.committing then
        some ({ msg with tokens := d1.m_numCaches % UINT_RANGE, sender := line.sender },
          setLine d1 i { line with state := LineState.LINE_FULL })
      else some (msg, d1)
  else some (msg, d)

/-- The process `Result DoResponses()`. -/
def DoResponses (d : RootDirectory) (e : Env) : Option (Result × RootDirectory) :=
  match d.m_responses with
  | [] => none
  | msg :: rest =>
    if e.grant = false then some (Result.FAILED, d)
    else
      match stampResponse d e msg with
      | none => none
      | some (msg1, d1) =>
        let msg2 := if e.committing then { msg1 with ignore := false } else msg1
        match SendMessage d1 e msg2 MINSPACE_FORWARD with
        | (false, d2) => some (Result.FAILED, { d2 with m_responses := msg2 :: rest })
        | (true, d2) =>
          some (Result.SUCCESS,
            { d2 with m_responses := bufferPop e.committing (msg2 :: rest) })

/-- The callback `bool OnReadCompleted(MemAddr address, const MemData& data)`. -/
def OnReadCompleted (d : RootDirectory) (e : Env) (address : Nat) (data : MemData) :
    Option (Bool × RootDirectory) :=
  match d.m_activeMsg with
  | none => none
  | some active =>
    if active.address ≠ address then none
    else if active.type ≠ MessageType.REQUEST then none
    else
      let msg := if e.committing then
        { active with type := MessageType.REQUEST_DATA_TOKEN, data := data } else active
      match bufferPush e.committing e.responsesRoom d.m_responses msg with
      | (false, _) => some (false, { d with m_activeMsg := some msg })
      | (true, q) =>
        some (true,
          { d with m_responses := q, m_activeMsg := if e.committing then none else some msg })

/-! ## A small directory for concrete runs

Four caches, 64-byte lines, two sets of four lines. Address `0x1000` has tag
32 and selects set 0, the lines 0 to 3. -/

/-- An unused line. -/
def emptyLine : Line := ⟨LineState.LINE_EMPTY, 0, 0, 0⟩

/-- The directory with the given lines in set 0 and everything else empty. -/
def smallDir (set0 : List Line) : RootDirectory :=
  { m_lines := set0 ++ List.replicate 4 emptyLine
    m_lineSize := 64
    m_assoc := 4
    m_sets := 2
    m_numCaches := 4
    m_incoming := []
    m_requests := []
    m_responses := []
    m_activeMsg := none
    sent := []
    memOps := []
    deleted := [] }

/-- The all-Empty directory. -/
def emptyDir : RootDirectory := smallDir (List.replicate 4 emptyLine)

/-- Set 0 holds, in its last line, the line of `0x1000` in the given state,
with the given tokens, requested by cache 7. -/
def dirWith (state : LineState) (tokens : Nat) : RootDirectory :=
  smallDir [emptyLine, emptyLine, emptyLine, ⟨state, 32, tokens, 7⟩]

/-- A committing run in which nothing is refused. -/
def envOk : Env :=
  { committing := true, grant := true, requestsRoom := true, responsesRoom := true
    freeSlots := 2, memReadOk := true, memWriteOk := true }

/-- A message for address `0x1000` from cache 7 with a 64-byte payload. -/
def mkMsg (type : MessageType) (tokens : Nat) (dirty : Bool) : Message :=
  { type := type, address := 0x1000, sender := 7, ignore := false
    data := ⟨[1, 2, 3], 64⟩, dirty := dirty, tokens := tokens }

/-- The tag `(address / m_lineSize) / m_sets` of an address. -/
def tagOf (d : RootDirectory) (address : Nat) : Nat :=
  (address / d.m_lineSize) / d.m_sets

/-- The index `((address / m_lineSize) % m_sets) * m_assoc` of the first line
of the set an address selects. -/
def setBase (d : RootDirectory) (address : Nat) : Nat :=
  ((address / d.m_lineSize) % d.m_sets) * d.m_assoc

/-- The set selected by the address holds a line in state `LINE_EMPTY`. -/
def hasEmptySlot (d : RootDirectory) (address : Nat) : Prop :=
  ∃ k, k < d.m_assoc ∧ ∃ l, d.m_lines[setBase d address + k]? = some l ∧
    l.state = LineState.LINE_EMPTY

/-- One step of the life cycle of a line: the state is kept, or goes from
Empty to Loading, from Loading to Full, or from Full to Empty. -/
def stateStep (a b : LineState) : Prop :=
  a = b ∨ (a = LineState.LINE_EMPTY ∧ b = LineState.LINE_LOADING) ∨
    (a = LineState.LINE_LOADING ∧ b = LineState.LINE_FULL) ∨
    (a = LineState.LINE_FULL ∧ b = LineState.LINE_EMPTY)

/-- What one step of the controller may do to a line: a line that stays
Empty or Full may have its other fields rewritten, a Loading line that stays
Loading is untouched, and the state changes only along the cycle. -/
def lineStep (l l1 : Line) : Prop :=
  stateStep l.state l1.state ∧
    (l.state = LineState.LINE_LOADING → l1.state = LineState.LINE_LOADING → l1 = l)

/-- The table after a step against the table before: the same number of
lines, and every line made a `lineStep`. -/
def linesStep (ls ls1 : List Line) : Prop :=
  ls1.length = ls.length ∧
    ∀ (j : Nat) (l l1 : Line), ls[j]? = some l → ls1[j]? = some l1 → lineStep l l1

/-- A step writes at most one line of the table, and that line makes a
`lineStep`. -/
def lineChange (ls ls1 : List Line) : Prop :=
  ls1 = ls ∨ ∃ (j : Nat) (l l1 : Line), ls[j]? = some l ∧ ls1 = ls.set j l1 ∧ lineStep l l1

/-- The messages that pass through: an Update, a RequestWithDataAndTokens,
or a Request with a payload of `m_lineSize` whose address hits a Loading or
Full line. -/
def passesThrough (d : RootDirectory) (msg : Message) : Prop :=
  msg.type = MessageType.UPDATE ∨ msg.type = MessageType.REQUEST_DATA_TOKEN ∨
    (msg.type = MessageType.REQUEST ∧ msg.data.size = d.m_lineSize ∧
      ∃ i line, FindLineConst d msg.address = some (some i) ∧ d.m_lines[i]? = some line ∧
        (line.state = LineState.LINE_LOADING ∨ line.state = LineState.LINE_FULL))

/-- A committing run in which the ring has one free slot: too few for the
shortcut, enough for `DoResponses`. -/
def envSlow : Env := { envOk with freeSlots := 1 }

/-- The four ways `OnMessageReceived` disposes of a message it accepts. -/
inductive Fate where
  | allocateAndQueue
  | forward
  | discardWithTokens
  | discardAsWriteback
  deriving DecidableEq, Repr

/-- What each fate is, on the directory before (`d`) and after (`d1`) the
call and the message before (`msg`) and after (`msg1`).

* `allocateAndQueue`: a Request is appended to the request queue and an
  Empty line becomes its Loading line; nothing is sent or deleted.
* `forward`: the message is sent on the ring, or marked `ignore` and appended
  to the request queue; nothing is deleted and no line changes state.
* `discardWithTokens`: an Eviction is deleted and the line of its address,
  still Full, holds the sum of the tokens; nothing is sent or queued.
* `discardAsWriteback`: the line of the address of an Eviction goes from Full
  to Empty; a dirty message is appended to the request queue, a clean one is
  deleted; nothing is sent. -/
def Fate.happened (f : Fate) (d : RootDirectory) (msg msg1 : Message) (d1 : RootDirectory) :
    Prop :=
  match f with
  | Fate.allocateAndQueue =>
    msg.type = MessageType.REQUEST ∧ d1.m_requests = d.m_requests ++ [msg] ∧
      d1.sent = d.sent ∧ d1.deleted = d.deleted ∧
      ∃ (i : Nat) (l : Line), d.m_lines[i]? = some l ∧ l.state = LineState.LINE_EMPTY ∧
        d1.m_lines[i]? = some ⟨LineState.LINE_LOADING, tagOf d msg.address, 0, msg.sender⟩
  | Fate.forward =>
    d1.deleted = d.deleted ∧
      (∀ (j : Nat) (l l1 : Line), d.m_lines[j]? = some l → d1.m_lines[j]? = some l1 →
        l1.state = l.state) ∧
      ((d1.sent = d.sent ++ [msg1] ∧ d1.m_requests = d.m_requests) ∨
       (d1.sent = d.sent ∧ msg1.ignore = true ∧ d1.m_requests = d.m_requests ++ [msg1]))
  | Fate.discardWithTokens =>
    msg.type = MessageType.EVICTION ∧ d1.deleted = d.deleted ++ [msg] ∧
      d1.sent = d.sent ∧ d1.m_requests = d.m_requests ∧
      ∃ (i : Nat) (l : Line), FindLineConst d msg.address = some (some i) ∧
        d.m_lines[i]? = some l ∧ l.state = LineState.LINE_FULL ∧
        d1.m_lines[i]? = some { l with tokens := (msg.tokens + l.tokens) % UINT_RANGE }
  | Fate.discardAsWriteback =>
    msg.type = MessageType.EVICTION ∧ d1.sent = d.sent ∧
      (∃ (i : Nat) (l : Line), FindLineConst d msg.address = some (some i) ∧
        d.m_lines[i]? = some l ∧ l.state = LineState.LINE_FULL ∧
        d1.m_lines[i]? = some { l with state := LineState.LINE_EMPTY }) ∧
      ((msg.dirty = true ∧ d1.m_requests = d.m_requests ++ [msg] ∧ d1.deleted = d.deleted) ∨
       (msg.dirty = false ∧ d1.deleted = d.deleted ++ [msg] ∧ d1.m_requests = d.m_requests))

/-- The directory after the line of `0x1000` was evicted with one token
stored (Empty, tag 32, 1 token), with a Request of `0x1080` (tag 33, the same
set) at ingress. -/
def dirStale : RootDirectory :=
  { dirWith LineState.LINE_EMPTY 1 with
    m_incoming := [{ mkMsg MessageType.REQUEST 0 false with address := 0x1080 }] }

/-- The directory with a read outstanding and a Request of `0x1000` at the
head of the request queue. -/
def dirStalled : RootDirectory :=
  { dirWith LineState.LINE_LOADING 0 with
    m_requests := [mkMsg MessageType.REQUEST 0 false]
    m_activeMsg := some (mkMsg MessageType.REQUEST 0 false) }

/-- The geometry the constructor establishes and the divisions of the lookup
need: a line size and a number of sets that are not zero, and
`m_assoc * m_sets` lines. -/
def wellFormed (d : RootDirectory) : Prop :=
  0 < d.m_lineSize ∧ 0 < d.m_sets ∧ d.m_lines.length = d.m_assoc * d.m_sets

/-- The line at offset `k` of the set an address selects is a non-empty line
with the tag of the address. -/
def matchesAt (d : RootDirectory) (address k : Nat) : Prop :=
  ∃ l, d.m_lines[setBase d address + k]? = some l ∧ l.state ≠ LineState.LINE_EMPTY ∧
    l.tag = tagOf d address

/-- The set `(address / m_lineSize) % m_sets` an address selects. -/
def setIndexOf (d : RootDirectory) (address : Nat) : Nat :=
  (address / d.m_lineSize) % d.m_sets

/-- The address `(line.tag * m_sets + set) * m_lineSize` that `Cmd_Read`
prints for a line with tag `tag` in set `set`. -/
def lineAddress (d : RootDirectory) (tag set : Nat) : Nat :=
  (tag * d.m_sets + set) * d.m_lineSize

/-- The writes `OnMessageReceived` makes to a line `l` at index `i`, giving
`l1`: the lookup of a Request that misses re-initialises an Empty line of the
set, which the Request case may then make Loading; a RequestWithData takes
the tokens of a Full line; an Eviction stores the sum of the tokens in a Full
line or makes it Empty. -/
def ingressWrite (d : RootDirectory) (msg : Message) (i : Nat) (l l1 : Line) : Prop :=
  (msg.type = MessageType.REQUEST ∧ l.state = LineState.LINE_EMPTY ∧
    FindLineConst d msg.address = some none ∧
    (∃ k, k < d.m_assoc ∧ i = setBase d msg.address + k) ∧
    (l1 = ⟨LineState.LINE_EMPTY, tagOf d msg.address, 0, l.sender⟩ ∨
     l1 = ⟨LineState.LINE_LOADING, tagOf d msg.address, 0, msg.sender⟩)) ∨
  (msg.type = MessageType.REQUEST_DATA ∧ l.state = LineState.LINE_FULL ∧ 0 < l.tokens ∧
    l1 = { l with tokens := 0 }) ∨
  (msg.type = MessageType.EVICTION ∧ l.state = LineState.LINE_FULL ∧
    (((msg.tokens + l.tokens) % UINT_RANGE < d.m_numCaches ∧
      l1 = { l with tokens := (msg.tokens + l.tokens) % UINT_RANGE }) ∨
     l1 = { l with state := LineState.LINE_EMPTY }))

/-- The members the constructor sets once: line size, associativity, number
of sets, number of caches. -/
def sameConfig (d d1 : RootDirectory) : Prop :=
  d1.m_lineSize = d.m_lineSize ∧ d1.m_assoc = d.m_assoc ∧ d1.m_sets = d.m_sets ∧
    d1.m_numCaches = d.m_numCaches

/-- The tokens of the lines that are Full before and after a step did not
decrease. -/
def tokensGrow (ls ls1 : List Line) : Prop :=
  ∀ (j : Nat) (l l1 : Line), ls[j]? = some l → ls1[j]? = some l1 →
    l.state = LineState.LINE_FULL → l1.state = LineState.LINE_FULL → l.tokens ≤ l1.tokens

/-- The directory the constructor leaves: `m_assoc * m_sets` lines, all
`LINE_EMPTY`, empty queues and no active message. -/
def Initial (d : RootDirectory) : Prop :=
  d.m_lines.length = d.m_assoc * d.m_sets ∧
    (∀ l ∈ d.m_lines, l.state = LineState.LINE_EMPTY) ∧
    d.m_incoming = [] ∧ d.m_requests = [] ∧ d.m_responses = [] ∧ d.m_activeMsg = none

/-- The states the directory reaches from the constructor: a message arrives
on the ingress queue, or one of the three processes or the completion
callback runs (in any environment) without a failed assertion. -/
inductive Reachable : RootDirectory → Prop where
  | init (d : RootDirectory) : Initial d → Reachable d
  | arrive (d : RootDirectory) (msg : Message) :
      Reachable d → Reachable { d with m_incoming := d.m_incoming ++ [msg] }
  | doIncoming (d d1 : RootDirectory) (e : Env) (r : Result) :
      Reachable d → DoIncoming d e = some (r, d1) → Reachable d1
  | doRequests (d d1 : RootDirectory) (e : Env) (r : Result) :
      Reachable d → DoRequests d e = some (r, d1) → Reachable d1
  | onReadCompleted (d d1 : RootDirectory) (e : Env) (address : Nat) (data : MemData)
      (ok : Bool) :
      Reachable d → OnReadCompleted d e address data = some (ok, d1) → Reachable d1
  | doResponses (d d1 : RootDirectory) (e : Env) (r : Result) :
      Reachable d → DoResponses d e = some (r, d1) → Reachable d1

/-- What a step does to the table and the configuration: the configuration
is kept, and no line is written, or one line is written by the ingress
handler (`ingressWrite`) or made Full from Loading by `DoResponses`. -/
def stepWrite (d d1 : RootDirectory) : Prop :=
  sameConfig d d1 ∧
    (d1.m_lines = d.m_lines ∨ ∃ (msg : Message) (i : Nat) (l l1 : Line),
      d.m_lines[i]? = some l ∧ d1.m_lines = d.m_lines.set i l1 ∧
      (ingressWrite d msg i l l1 ∨
       (l.state = LineState.LINE_LOADING ∧ l1 = { l with state := LineState.LINE_FULL })))

/-- A run that is not committing and in which nothing is refused. -/
def envNotCommitting : Env := { envOk with committing := false }

/-- Every Loading line has 0 tokens. -/
def loadingZero (d : RootDirectory) : Prop :=
  ∀ l ∈ d.m_lines, l.state = LineState.LINE_LOADING → l.tokens = 0

/-- Every Full line has fewer than `m_numCaches` tokens. -/
def fullBelow (d : RootDirectory) : Prop :=
  ∀ l ∈ d.m_lines, l.state = LineState.LINE_FULL → l.tokens < d.m_numCaches

/-- What happens to the directory between two steps or as a step. -/
inductive Action where
  | arrive (msg : Message)
  | incoming (e : Env)
  | requests (e : Env)
  | completed (e : Env) (address : Nat) (data : MemData)
  | responses (e : Env)
  deriving DecidableEq, Repr

/-- The directory after an action; `none` when an assertion of the step
fails. -/
def applyAction (d : RootDirectory) : Action → Option RootDirectory
  | Action.arrive msg => some { d with m_incoming := d.m_incoming ++ [msg] }
  | Action.incoming e => (DoIncoming d e).map Prod.snd
  | Action.requests e => (DoRequests d e).map Prod.snd
  | Action.completed e address data => (OnReadCompleted d e address data).map Prod.snd
  | Action.responses e => (DoResponses d e).map Prod.snd

/-- The directory after a list of actions. -/
def run (d : RootDirectory) : List Action → Option RootDirectory
  | [] => some d
  | a :: rest =>
    match applyAction d a with
    | none => none
    | some d1 => run d1 rest

/-- A first load of `0x1000` followed by an Eviction that returns 1 token:
the request arrives and is handled, the read is issued and completes, the
response is sent, the Eviction arrives and is handled. -/
def scenarioLoaded : List Action :=
  [Action.arrive (mkMsg MessageType.REQUEST 0 false), Action.incoming envOk,
    Action.requests envOk, Action.completed envOk 0x1000 ⟨[9, 9], 64⟩, Action.responses envOk,
    Action.arrive (mkMsg MessageType.EVICTION 1 false), Action.incoming envOk]

/-- The directory after `scenarioLoaded`: the line of `0x1000` is Full with 1
token. -/
def dirLoaded : RootDirectory :=
  { dirWith LineState.LINE_FULL 1 with
    sent := [{ mkMsg MessageType.REQUEST_DATA_TOKEN 4 false with data := ⟨[9, 9], 64⟩ }]
    memOps := [MemOp.Read 0x1000 64]
    deleted := [mkMsg MessageType.EVICTION 1 false] }

/-- After `scenarioLoaded`: an Eviction returns the other 3 tokens, so that
the line becomes Empty with the count 1 still stored, and a Request of
`0x1080` (tag 33, the same set) arrives and is handled. -/
def scenarioReloaded : List Action :=
  [Action.arrive (mkMsg MessageType.EVICTION 3 false), Action.incoming envOk,
    Action.arrive { mkMsg MessageType.REQUEST 0 false with address := 0x1080 },
    Action.incoming envOk]

/-- The directory after `scenarioLoaded` and `scenarioReloaded`: the slot of
the evicted line is the Loading line of `0x1080`. -/
def dirReloaded : RootDirectory :=
  { smallDir [emptyLine, emptyLine, emptyLine, ⟨LineState.LINE_LOADING, 33, 0, 7⟩] with
    m_requests := [{ mkMsg MessageType.REQUEST 0 false with address := 0x1080 }]
    sent := [{ mkMsg MessageType.REQUEST_DATA_TOKEN 4 false with data := ⟨[9, 9], 64⟩ }]
    memOps := [MemOp.Read 0x1000 64]
    deleted := [mkMsg MessageType.EVICTION 1 false, mkMsg MessageType.EVICTION 3 false] }

end COMA

namespace COMA

/-! ## The lookup -/

/-- A hit of the read-only scan is the early return of the scan of
`FindLine(MemAddr, bool)`, whatever `empty` holds. -/
theorem scanSet_of_const_hit (lines : List Line) (tag set i : Nat) (is : List Nat) :
    ∀ empty : Option Nat, scanSetConst lines tag set is = some (some i) →
      scanSet lines tag set is empty = some (Scan.found i) := by
  induction is with
  | nil => intro empty h; simp [scanSetConst] at h
  | cons x rest ih =>
    intro empty h
    unfold scanSetConst at h
    unfold scanSet
    cases hx : lines[set + x]? with
    | none => simp [hx] at h
    | some line =>
      simp only [hx] at h ⊢
      by_cases hs : line.state = LineState.LINE_EMPTY
      · simp only [hs, ne_eq, not_true_eq_false, false_and, if_false, if_true] at h ⊢
        exact ih _ h
      · by_cases ht : line.tag = tag
        · simp only [hs, ht, ne_eq, not_false_eq_true, and_self, if_true, if_false] at h ⊢
          simpa using h
        · simp only [hs, ht, ne_eq, not_false_eq_true, and_false, if_false] at h ⊢
          exact ih _ h

/-- A hit of the read-only lookup is a hit of `FindLine(MemAddr, bool)` at the
same line, and the table is not written. -/
theorem FindLine_of_const_hit (d : RootDirectory) (address i : Nat) (check_only : Bool)
    (h : FindLineConst d address = some (some i)) :
    FindLine d address check_only = some (some i, d) := by
  unfold FindLineConst at h
  unfold FindLine
  by_cases hz : d.m_lineSize = 0 ∨ d.m_sets = 0
  · simp [hz] at h
  · simp only [hz, if_false] at h ⊢
    simp only [scanSet_of_const_hit _ _ _ _ _ none h]

/-- A miss of the read-only scan makes the scan of `FindLine(MemAddr, bool)`
run to the end of the loop. -/
theorem scanSet_of_const_miss (lines : List Line) (tag set : Nat) (is : List Nat) :
    ∀ empty : Option Nat, scanSetConst lines tag set is = some none →
      ∃ empty1, scanSet lines tag set is empty = some (Scan.missed empty1) := by
  induction is with
  | nil => intro empty _; exact ⟨empty, rfl⟩
  | cons x rest ih =>
    intro empty h
    unfold scanSetConst at h
    unfold scanSet
    cases hx : lines[set + x]? with
    | none => simp [hx] at h
    | some line =>
      simp only [hx] at h ⊢
      by_cases hs : line.state = LineState.LINE_EMPTY
      · simp only [hs, ne_eq, not_true_eq_false, false_and, if_false, if_true] at h ⊢
        exact ih _ h
      · by_cases ht : line.tag = tag
        · simp [hs, ht] at h
        · simp only [hs, ht, ne_eq, not_false_eq_true, and_false, if_false] at h ⊢
          exact ih _ h

/-- The line the loop remembers in `empty` is a line of the set in state
`LINE_EMPTY`, unless it is the value `empty` had before the loop. -/
theorem scanSet_missed_empty (lines : List Line) (tag set j : Nat) (is : List Nat) :
    ∀ empty : Option Nat, scanSet lines tag set is empty = some (Scan.missed (some j)) →
      empty = some j ∨ ∃ k, k ∈ is ∧ j = set + k ∧
        ∃ l, lines[j]? = some l ∧ l.state = LineState.LINE_EMPTY := by
  induction is with
  | nil => intro empty h; simp [scanSet] at h; exact Or.inl h
  | cons x rest ih =>
    intro empty h
    unfold scanSet at h
    cases hx : lines[set + x]? with
    | none => simp [hx] at h
    | some line =>
      simp only [hx] at h
      by_cases hs : line.state = LineState.LINE_EMPTY
      · simp only [hs, if_true] at h
        rcases ih _ h with h1 | ⟨k, hk, hj, hl⟩
        · right
          have hj : set + x = j := by simpa using h1
          exact ⟨x, List.mem_cons_self _ _, hj.symm, line, hj ▸ hx, hs⟩
        · exact Or.inr ⟨k, List.mem_cons_of_mem _ hk, hj, hl⟩
      · by_cases ht : line.tag = tag
        · simp [hs, ht] at h
        · simp only [hs, ht, if_false] at h
          rcases ih _ h with h1 | ⟨k, hk, hj, hl⟩
          · exact Or.inl h1
          · exact Or.inr ⟨k, List.mem_cons_of_mem _ hk, hj, hl⟩

/-- When the set holds an Empty line, the loop ends with `empty` set. -/
theorem scanSet_missed_some (lines : List Line) (tag set : Nat) (is : List Nat) :
    ∀ empty empty1 : Option Nat, scanSet lines tag set is empty = some (Scan.missed empty1) →
      (empty ≠ none ∨ ∃ k, k ∈ is ∧ ∃ l, lines[set + k]? = some l ∧
        l.state = LineState.LINE_EMPTY) → empty1 ≠ none := by
  induction is with
  | nil =>
    intro empty empty1 h hor
    simp [scanSet] at h
    rcases hor with h1 | ⟨k, hk, _⟩
    · exact h ▸ h1
    · cases hk
  | cons x rest ih =>
    intro empty empty1 h hor
    unfold scanSet at h
    cases hx : lines[set + x]? with
    | none => simp [hx] at h
    | some line =>
      simp only [hx] at h
      by_cases hs : line.state = LineState.LINE_EMPTY
      · simp only [hs, if_true] at h
        exact ih _ _ h (Or.inl (by simp))
      · by_cases ht : line.tag = tag
        · simp [hs, ht] at h
        · simp only [hs, ht, if_false] at h
          refine ih _ _ h ?_
          rcases hor with h1 | ⟨k, hk, l, hl, hle⟩
          · exact Or.inl h1
          · rcases List.mem_cons.mp hk with hkx | hkr
            · subst hkx
              rw [hx] at hl
              cases hl
              exact absurd hle hs
            · exact Or.inr ⟨k, hkr, l, hl, hle⟩

/-- C1: an Eviction handled with the grant held, whose address hits a Full
line with `t0` tokens and which carries `k` tokens with `t0 + k` below
`m_numCaches`: the call returns true, the line stays Full with `t0 + k`
tokens, every other line is unchanged, the message is deleted, and it is
neither sent on the ring nor appended to the request queue. -/
theorem eviction_partial_accumulates (d : RootDirectory) (e : Env) (msg : Message)
    (i : Nat) (line : Line)
    (hgrant : e.grant = true) (hcommit : e.committing = true)
    (htype : msg.type = MessageType.EVICTION)
    (hhit : FindLineConst d msg.address = some (some i))
    (hline : d.m_lines[i]? = some line)
    (hfull : line.state = LineState.LINE_FULL)
    (hfit : d.m_numCaches < UINT_RANGE)
    (hlt : line.tokens + msg.tokens < d.m_numCaches) :
    ∃ d1, OnMessageReceived d e msg = some (true, msg, d1) ∧
      d1.m_lines[i]? = some { line with tokens := line.tokens + msg.tokens } ∧
      ({ line with tokens := line.tokens + msg.tokens } : Line).state = LineState.LINE_FULL ∧
      (∀ j, j ≠ i → d1.m_lines[j]? = d.m_lines[j]?) ∧
      d1.deleted = d.deleted ++ [msg] ∧
      d1.sent = d.sent ∧
      d1.m_requests = d.m_requests := by
  have hi : i < d.m_lines.length := by
    rcases Nat.lt_or_ge i d.m_lines.length with h | h
    · exact h
    · rw [List.getElem?_eq_none h] at hline; cases hline
  have hmod : (msg.tokens + line.tokens) % UINT_RANGE = line.tokens + msg.tokens := by
    rw [Nat.mod_eq_of_lt (by omega)]; omega
  refine ⟨deleteMsg (setLine d i { line with tokens := line.tokens + msg.tokens }) msg, ?_, ?_,
    hfull, ?_, rfl, rfl, rfl⟩
  · unfold OnMessageReceived
    simp only [hgrant, htype, FindLine_of_const_hit d msg.address i true hhit, deref, hline,
      caseEviction, hfull, hmod, hcommit]
    simp [hlt, Nat.not_lt.mpr (Nat.le_of_lt hlt)]
  · simp [deleteMsg, setLine, hi]
  · intro j hj
    simp [deleteMsg, setLine, List.getElem?_set, Ne.symm hj]

/-- Witness of C1: a Full line with 1 token and an Eviction with 2 tokens,
four caches. -/
theorem eviction_partial_accumulates_witness :
    ∃ d1, OnMessageReceived (dirWith LineState.LINE_FULL 1) envOk
        (mkMsg MessageType.EVICTION 2 false)
        = some (true, mkMsg MessageType.EVICTION 2 false, d1) ∧
      d1.m_lines[3]? = some ⟨LineState.LINE_FULL, 32, 3, 7⟩ ∧
      d1.deleted = [mkMsg MessageType.EVICTION 2 false] ∧
      d1.sent = [] ∧
      d1.m_requests = [] := by
  obtain ⟨d1, h1, h2, _, _, h5, h6, h7⟩ :=
    eviction_partial_accumulates (dirWith LineState.LINE_FULL 1) envOk
      (mkMsg MessageType.EVICTION 2 false) 3 ⟨LineState.LINE_FULL, 32, 1, 7⟩
      (by decide) (by decide) (by decide) (by decide) (by decide) (by decide) (by decide)
      (by decide)
  exact ⟨d1, h1, h2, h5, h6, h7⟩

/-- The write branch of `DoRequests`: with no read outstanding, an Eviction
at the head of the request queue that is not marked `ignore` is written to
the backing store once, deleted and popped. -/
theorem DoRequests_write (s : RootDirectory) (e : Env) (msg : Message) (rest : List Message)
    (hq : s.m_requests = msg :: rest) (hact : s.m_activeMsg = none)
    (htype : msg.type = MessageType.EVICTION) (hign : msg.ignore = false)
    (hcommit : e.committing = true) (hmem : e.memWriteOk = true) :
    DoRequests s e = some (Result.SUCCESS,
      { s with
        memOps := s.memOps ++ [MemOp.Write msg.address msg.data.data msg.data.size]
        deleted := s.deleted ++ [msg]
        m_requests := rest }) := by
  unfold DoRequests
  simp [hq, hact, htype, hign, hcommit, hmem, memoryWrite, deleteMsg, bufferPop]

/-- C2: an Eviction whose address hits a Full line with `t0` tokens and which
carries `k` tokens with `t0 + k = m_numCaches`: the line becomes Empty and
the message is not sent on the ring; a dirty message is appended to the
request queue, and the `DoRequests` step that finds it at the head issues
one write of its address, payload bytes and payload size and deletes it; a
clean message is deleted at once and no backing-store operation is issued. -/
theorem eviction_full_reclaims (d : RootDirectory) (e : Env) (msg : Message)
    (i : Nat) (line : Line)
    (hgrant : e.grant = true) (hcommit : e.committing = true)
    (htype : msg.type = MessageType.EVICTION) (hign : msg.ignore = false)
    (hhit : FindLineConst d msg.address = some (some i))
    (hline : d.m_lines[i]? = some line)
    (hfull : line.state = LineState.LINE_FULL)
    (hfit : d.m_numCaches < UINT_RANGE)
    (heq : line.tokens + msg.tokens = d.m_numCaches)
    (hroom : msg.dirty = true → e.requestsRoom = true) :
    ∃ d1, OnMessageReceived d e msg = some (true, msg, d1) ∧
      d1.m_lines = d.m_lines.set i { line with state := LineState.LINE_EMPTY } ∧
      d1.sent = d.sent ∧
      d1.memOps = d.memOps ∧
      (msg.dirty = true → d1.m_requests = d.m_requests ++ [msg] ∧ d1.deleted = d.deleted) ∧
      (msg.dirty = false → d1.m_requests = d.m_requests ∧ d1.deleted = d.deleted ++ [msg]) ∧
      (msg.dirty = true → ∀ (s : RootDirectory) (e2 : Env) (rest : List Message),
        s.m_requests = msg :: rest → s.m_activeMsg = none →
        e2.committing = true → e2.memWriteOk = true →
        DoRequests s e2 = some (Result.SUCCESS,
          { s with
            memOps := s.memOps ++ [MemOp.Write msg.address msg.data.data msg.data.size]
            deleted := s.deleted ++ [msg]
            m_requests := rest })) := by
  have hmod : (msg.tokens + line.tokens) % UINT_RANGE = d.m_numCaches := by
    rw [Nat.mod_eq_of_lt (by omega)]; omega
  have hstep : ∀ b, msg.dirty = b → (b = true → e.requestsRoom = true) →
      OnMessageReceived d e msg = some (true, msg,
        if b then setLine { d with m_requests := d.m_requests ++ [msg] } i
            { line with state := LineState.LINE_EMPTY }
        else setLine (deleteMsg d msg) i { line with state := LineState.LINE_EMPTY }) := by
    intro b hb hr
    unfold OnMessageReceived
    simp only [hgrant, htype, FindLine_of_const_hit d msg.address i true hhit, deref, hline,
      caseEviction, hfull, hmod, hcommit, hb]
    cases b
    · simp
    · simp [hr rfl, bufferPush]
  cases hd : msg.dirty
  · refine ⟨_, hstep false hd (by simp), rfl, rfl, rfl, ?_, ?_, ?_⟩
    · intro h; cases h
    · intro _; exact ⟨rfl, rfl⟩
    · intro h; cases h
  · refine ⟨_, hstep true hd (fun _ => hroom hd), rfl, rfl, rfl, ?_, ?_, ?_⟩
    · intro _; exact ⟨rfl, rfl⟩
    · intro h; cases h
    · intro _ s e2 rest hq hact hc hm
      exact DoRequests_write s e2 msg rest hq hact htype hign hc hm

/-- Witness of C2: four caches, a Full line with 0 tokens and a clean
Eviction of `0x1000` with 4 tokens: the line is Empty, the message is
deleted, nothing is sent or queued. -/
theorem eviction_full_reclaims_witness :
    ∃ d1, OnMessageReceived (dirWith LineState.LINE_FULL 0) envOk
        (mkMsg MessageType.EVICTION 4 false)
        = some (true, mkMsg MessageType.EVICTION 4 false, d1) ∧
      d1.m_lines = [emptyLine, emptyLine, emptyLine, ⟨LineState.LINE_EMPTY, 32, 0, 7⟩,
        emptyLine, emptyLine, emptyLine, emptyLine] ∧
      d1.sent = [] ∧ d1.memOps = [] ∧ d1.m_requests = [] ∧
      d1.deleted = [mkMsg MessageType.EVICTION 4 false] := by
  obtain ⟨d1, h1, h2, h3, h4, _, h6, _⟩ :=
    eviction_full_reclaims (dirWith LineState.LINE_FULL 0) envOk
      (mkMsg MessageType.EVICTION 4 false) 3 ⟨LineState.LINE_FULL, 32, 0, 7⟩
      (by decide) (by decide) (by decide) (by decide) (by decide) (by decide) (by decide)
      (by decide) (by decide) (by decide)
  exact ⟨d1, h1, h2, h3, h4, (h6 rfl).1, (h6 rfl).2⟩

/-- The read-only lookup reads the line table and the geometry only. -/
theorem FindLineConst_congr (d d1 : RootDirectory) (address : Nat)
    (hl : d1.m_lines = d.m_lines) (hs : d1.m_lineSize = d.m_lineSize)
    (ha : d1.m_assoc = d.m_assoc) (hn : d1.m_sets = d.m_sets) :
    FindLineConst d1 address = FindLineConst d address := by
  unfold FindLineConst
  rw [hl, hs, ha, hn]

/-- The early return of the scan is a non-empty line with the wanted tag. -/
theorem scanSet_found (lines : List Line) (tag set i : Nat) (is : List Nat) :
    ∀ empty : Option Nat, scanSet lines tag set is empty = some (Scan.found i) →
      ∃ l, lines[i]? = some l ∧ l.state ≠ LineState.LINE_EMPTY ∧ l.tag = tag := by
  induction is with
  | nil => intro empty h; simp [scanSet] at h
  | cons x rest ih =>
    intro empty h
    unfold scanSet at h
    cases hx : lines[set + x]? with
    | none => simp [hx] at h
    | some line =>
      simp only [hx] at h
      by_cases hs : line.state = LineState.LINE_EMPTY
      · simp only [hs, if_true] at h
        exact ih _ h
      · by_cases ht : line.tag = tag
        · simp only [hs, ht, if_false, if_true, Option.some.injEq, Scan.found.injEq] at h
          exact ⟨line, h ▸ hx, hs, ht⟩
        · simp only [hs, ht, if_false] at h
          exact ih _ h

/-- What `FindLine(MemAddr, bool)` returns and writes: a non-empty line with
the tag of the address and no write; or nothing and no write; or, when
`check_only` is false, an Empty line that it re-initialises. -/
theorem FindLine_cases (d d1 : RootDirectory) (address : Nat) (check_only : Bool)
    (r : Option Nat) (h : FindLine d address check_only = some (r, d1)) :
    (d1 = d ∧ (r = none ∨ ∃ i l, r = some i ∧ d.m_lines[i]? = some l ∧
        l.state ≠ LineState.LINE_EMPTY ∧ l.tag = tagOf d address)) ∨
    (check_only = false ∧ ∃ j l, r = some j ∧ d.m_lines[j]? = some l ∧
        l.state = LineState.LINE_EMPTY ∧
        d1 = setLine d j
          { l with tag := tagOf d address, state := LineState.LINE_EMPTY, tokens := 0 }) := by
  unfold FindLine at h
  by_cases hz : d.m_lineSize = 0 ∨ d.m_sets = 0
  · simp [hz] at h
  · simp only [hz, if_false] at h
    cases hscan : scanSet d.m_lines (address / d.m_lineSize / d.m_sets)
        (address / d.m_lineSize % d.m_sets * d.m_assoc) (List.range d.m_assoc) none with
    | none => simp [hscan] at h
    | some sc =>
      simp only [hscan] at h
      cases sc with
      | found i =>
        simp only [Option.some.injEq, Prod.mk.injEq] at h
        obtain ⟨l, hl, hs, ht⟩ := scanSet_found _ _ _ _ _ _ hscan
        exact Or.inl ⟨h.2.symm, Or.inr ⟨i, l, h.1.symm, hl, hs, ht⟩⟩
      | missed em =>
        cases em with
        | none =>
          simp only [Option.some.injEq, Prod.mk.injEq] at h
          exact Or.inl ⟨h.2.symm, Or.inl h.1.symm⟩
        | some j =>
          cases check_only with
          | true =>
            simp only [if_true, Option.some.injEq, Prod.mk.injEq] at h
            exact Or.inl ⟨h.2.symm, Or.inl h.1.symm⟩
          | false =>
            rcases scanSet_missed_empty _ _ _ _ _ _ hscan with h1 | ⟨k, _, _, l, hl, hle⟩
            · cases h1
            · simp only [hl, Bool.false_eq_true, if_false, Option.some.injEq,
                Prod.mk.injEq] at h
              exact Or.inr ⟨rfl, j, l, h.1.symm, hl, hle, h.2.symm⟩

/-- A dereferenced lookup: either the table was not written and the line is
a non-empty line with the tag of the address, or (`check_only` false) the
line is an Empty line that the lookup re-initialised. -/
theorem deref_FindLine (d d1 : RootDirectory) (address : Nat) (check_only : Bool)
    (i : Nat) (line : Line)
    (h : deref (FindLine d address check_only) = some (i, line, d1)) :
    (d1 = d ∧ d.m_lines[i]? = some line ∧ line.state ≠ LineState.LINE_EMPTY ∧
        line.tag = tagOf d address) ∨
    (check_only = false ∧ ∃ l, d.m_lines[i]? = some l ∧ l.state = LineState.LINE_EMPTY ∧
        line = { l with tag := tagOf d address, state := LineState.LINE_EMPTY, tokens := 0 } ∧
        d1 = setLine d i line) := by
  cases hf : FindLine d address check_only with
  | none => simp [hf, deref] at h
  | some p =>
    obtain ⟨r, d2⟩ := p
    cases r with
    | none => simp [hf, deref] at h
    | some i0 =>
      simp only [hf, deref] at h
      cases hl : d2.m_lines[i0]? with
      | none => simp [hl] at h
      | some l0 =>
        simp only [hl, Option.some.injEq, Prod.mk.injEq] at h
        obtain ⟨hi, hline, hd⟩ := h
        subst hi hline hd
        rcases FindLine_cases d d2 address check_only (some i0) hf with
          ⟨hd, hr⟩ | ⟨hc, j, l, hr, hlj, hle, hd⟩
        · subst hd
          rcases hr with hr | ⟨i1, l1, hr, hl1, hs, ht⟩
          · cases hr
          · cases hr
            rw [hl] at hl1
            cases hl1
            exact Or.inl ⟨rfl, hl, hs, ht⟩
        · cases hr
          have hj : i0 < d.m_lines.length := by
            rcases Nat.lt_or_ge i0 d.m_lines.length with h | h
            · exact h
            · rw [List.getElem?_eq_none h] at hlj; cases hlj
          subst hd
          simp only [setLine, List.getElem?_set, hj, if_true] at hl
          simp only [Option.some.injEq] at hl
          subst hl
          exact Or.inr ⟨hc, l, hlj, hle, rfl, rfl⟩

/-- Keeping the state is a `lineStep` unless the line is Loading. -/
theorem lineStep_same (l l1 : Line) (hs : l1.state = l.state)
    (hl : l.state ≠ LineState.LINE_LOADING) : lineStep l l1 :=
  ⟨Or.inl hs.symm, fun h => absurd h hl⟩

/-- Every line is a `lineStep` of itself. -/
theorem lineStep_refl (l : Line) : lineStep l l :=
  ⟨Or.inl rfl, fun _ _ => rfl⟩

/-- A table in which at most one line made a `lineStep` made a `linesStep`. -/
theorem linesStep_of_lineChange (ls ls1 : List Line) (h : lineChange ls ls1) :
    linesStep ls ls1 := by
  rcases h with h | ⟨j, l, l1, hl, hset, hstep⟩
  · subst h
    refine ⟨rfl, ?_⟩
    intro k a b ha hb
    rw [ha] at hb
    cases hb
    exact lineStep_refl a
  · subst hset
    refine ⟨by simp, ?_⟩
    intro k a b ha hb
    by_cases hk : j = k
    · subst hk
      rw [hl] at ha
      cases ha
      have hj : j < ls.length := by
        rcases Nat.lt_or_ge j ls.length with h | h
        · exact h
        · rw [List.getElem?_eq_none h] at hl; cases hl
      simp only [List.getElem?_set, hj, if_true, Option.some.injEq] at hb
      subst hb
      exact hstep
    · rw [List.getElem?_set_ne hk, ha] at hb
      cases hb
      exact lineStep_refl a

/-- The outcomes of the forward path: the shortcut send, or, when the ring
has fewer than `MINSPACE_SHORTCUT` free slots, the mark and the push on the
request queue, which is accepted or refused. -/
theorem forwardRequest_cases (d d1 : RootDirectory) (e : Env) (msg msg1 : Message) (ok : Bool)
    (h : forwardRequest d e msg = some (ok, msg1, d1)) :
    (MINSPACE_SHORTCUT ≤ e.freeSlots ∧ ok = true ∧ msg1 = msg ∧
      d1 = if e.committing then { d with sent := d.sent ++ [msg] } else d) ∨
    (e.freeSlots < MINSPACE_SHORTCUT ∧
      msg1 = (if e.committing then { msg with ignore := true } else msg) ∧
      ((e.requestsRoom = false ∧ ok = false ∧ d1 = d) ∨
       (e.requestsRoom = true ∧ ok = true ∧
        d1 = { d with m_requests :=
          if e.committing then d.m_requests ++ [msg1] else d.m_requests }))) := by
  unfold forwardRequest SendMessage at h
  by_cases hf : MINSPACE_SHORTCUT ≤ e.freeSlots
  · simp only [hf, if_true, Option.some.injEq, Prod.mk.injEq] at h
    obtain ⟨h1, h2, h3⟩ := h
    exact Or.inl ⟨hf, h1.symm, h2.symm, h3.symm⟩
  · simp only [hf, if_false, bufferPush] at h
    right
    refine ⟨Nat.lt_of_not_le hf, ?_⟩
    cases hr : e.requestsRoom
    · simp only [hr, Bool.false_eq_true, if_false, Option.some.injEq, Prod.mk.injEq] at h
      obtain ⟨h1, h2, h3⟩ := h
      exact ⟨h2.symm, Or.inl ⟨rfl, h1.symm, h3.symm⟩⟩
    · simp only [hr, if_true, Option.some.injEq, Prod.mk.injEq] at h
      obtain ⟨h1, h2, h3⟩ := h
      subst h2
      refine ⟨rfl, Or.inr ⟨rfl, h1.symm, ?_⟩⟩
      rw [← h3]

/-- The forward path writes no line. -/
theorem forwardRequest_lines (d d1 : RootDirectory) (e : Env) (msg msg1 : Message) (ok : Bool)
    (h : forwardRequest d e msg = some (ok, msg1, d1)) : d1.m_lines = d.m_lines := by
  rcases forwardRequest_cases d d1 e msg msg1 ok h with ⟨_, _, _, hd⟩ | ⟨_, _, hd | hd⟩
  · rw [hd]; cases e.committing <;> rfl
  · rw [hd.2.2]
  · rw [hd.2.2]

/-- The Request case writes the line only to take it from Empty to
Loading. -/
theorem caseRequest_lines (d1 d2 : RootDirectory) (e : Env) (msg msg1 : Message) (ok : Bool)
    (i : Nat) (line : Line) (h : caseRequest d1 e msg i line = some (ok, msg1, d2)) :
    d2.m_lines = d1.m_lines ∨ (line.state = LineState.LINE_EMPTY ∧
      d2.m_lines = d1.m_lines.set i
        { line with state := LineState.LINE_LOADING, sender := msg.sender }) := by
  unfold caseRequest at h
  by_cases hs : line.state = LineState.LINE_EMPTY
  · simp only [hs, if_true, bufferPush] at h
    cases hr : e.requestsRoom
    · simp only [hr, Bool.false_eq_true, if_false, Option.some.injEq, Prod.mk.injEq] at h
      exact Or.inl (by rw [← h.2.2])
    · simp only [hr, if_true, Option.some.injEq, Prod.mk.injEq] at h
      cases hc : e.committing
      · simp only [hc, Bool.false_eq_true, if_false] at h
        exact Or.inl (by rw [← h.2.2])
      · simp only [hc, if_true] at h
        exact Or.inr ⟨hs, by rw [← h.2.2]; rfl⟩
  · simp only [hs, if_false] at h
    exact Or.inl (forwardRequest_lines _ _ _ _ _ _ h)

/-- The RequestWithData case needs a Full line and writes it only to zero
its tokens. -/
theorem caseRequestData_lines (d1 d2 : RootDirectory) (e : Env) (msg msg1 : Message)
    (ok : Bool) (i : Nat) (line : Line)
    (h : caseRequestData d1 e msg i line = some (ok, msg1, d2)) :
    line.state = LineState.LINE_FULL ∧ (d2.m_lines = d1.m_lines ∨
      d2.m_lines = d1.m_lines.set i { line with tokens := 0 }) := by
  unfold caseRequestData at h
  obtain ⟨st, tg, tk, sd⟩ := line
  by_cases hs : st = LineState.LINE_FULL
  · subst hs
    refine ⟨rfl, ?_⟩
    simp only [ne_eq, not_true_eq_false, if_false] at h
    by_cases hc : 0 < tk ∧ e.committing = true
    · simp only [hc, and_self, if_true] at h
      exact Or.inr (forwardRequest_lines _ _ _ _ _ _ h)
    · simp only [hc, if_false] at h
      exact Or.inl (forwardRequest_lines _ _ _ _ _ _ h)
  · simp [hs] at h

/-- The Eviction case needs a Full line and writes it only to store the sum
of the tokens or to make it Empty. -/
theorem caseEviction_lines (d1 d2 : RootDirectory) (e : Env) (msg msg1 : Message)
    (ok : Bool) (i : Nat) (line : Line)
    (h : caseEviction d1 e msg i line = some (ok, msg1, d2)) :
    line.state = LineState.LINE_FULL ∧ (d2.m_lines = d1.m_lines ∨
      d2.m_lines = d1.m_lines.set i
        { line with tokens := (msg.tokens + line.tokens) % UINT_RANGE } ∨
      d2.m_lines = d1.m_lines.set i { line with state := LineState.LINE_EMPTY }) := by
  unfold caseEviction at h
  obtain ⟨st, tg, tk, sd⟩ := line
  by_cases hs : st = LineState.LINE_FULL
  · subst hs
    refine ⟨rfl, ?_⟩
    simp only [ne_eq, not_true_eq_false, if_false] at h
    by_cases h1 : d1.m_numCaches < (msg.tokens + tk) % UINT_RANGE
    · simp [h1] at h
    · simp only [h1, if_false] at h
      cases hc : e.committing <;> cases hd : msg.dirty <;> cases hr : e.requestsRoom <;>
        by_cases h2 : (msg.tokens + tk) % UINT_RANGE < d1.m_numCaches <;>
        simp only [hc, hd, hr, h2, bufferPush, if_true, if_false, Bool.false_eq_true,
          Option.some.injEq, Prod.mk.injEq] at h <;>
        obtain ⟨_, _, h3⟩ := h <;> subst h3 <;>
        simp [deleteMsg, setLine]
  · simp [hs] at h

/-- The ingress handler writes at most one line, along the life cycle. -/
theorem OnMessageReceived_lineChange (d d1 : RootDirectory) (e : Env) (msg msg1 : Message)
    (ok : Bool) (h : OnMessageReceived d e msg = some (ok, msg1, d1)) :
    lineChange d.m_lines d1.m_lines := by
  unfold OnMessageReceived at h
  cases hg : e.grant
  · simp only [hg, if_true, Option.some.injEq, Prod.mk.injEq] at h
    exact Or.inl (by rw [← h.2.2])
  · simp only [hg, Bool.true_eq_false, if_false] at h
    cases ht : msg.type <;> simp only [ht] at h
    · -- REQUEST
      by_cases hsz : msg.data.size ≠ d.m_lineSize
      · simp [hsz] at h
      · simp only [hsz, if_false] at h
        cases hdr : deref (FindLine d msg.address false) with
        | none => simp [hdr] at h
        | some p =>
          obtain ⟨i, line, d0⟩ := p
          simp only [hdr] at h
          have hc := caseRequest_lines _ _ _ _ _ _ _ _ h
          rcases deref_FindLine _ _ _ _ _ _ hdr with ⟨hd0, hl, hs, _⟩ | ⟨_, l, hl, hle, hline, hd0⟩
          · subst hd0
            rcases hc with hc | ⟨hc, _⟩
            · exact Or.inl hc
            · exact absurd hc hs
          · subst hd0
            rcases hc with hc | ⟨_, hc⟩
            · exact Or.inr ⟨i, l, line, hl, hc, lineStep_same _ _ (by rw [hline, hle])
                (by rw [hle]; decide)⟩
            · refine Or.inr ⟨i, l,
                { line with state := LineState.LINE_LOADING, sender := msg.sender }, hl, ?_, ?_⟩
              · rw [hc]; simp [setLine]
              · refine ⟨Or.inr (Or.inl ⟨hle, rfl⟩), ?_⟩
                intro hh; rw [hle] at hh; cases hh
    · -- REQUEST_DATA
      cases hdr : deref (FindLine d msg.address true) with
      | none => simp [hdr] at h
      | some p =>
        obtain ⟨i, line, d0⟩ := p
        simp only [hdr] at h
        obtain ⟨hfull, hc⟩ := caseRequestData_lines _ _ _ _ _ _ _ _ h
        rcases deref_FindLine _ _ _ _ _ _ hdr with ⟨hd0, hl, _, _⟩ | ⟨hco, _⟩
        · subst hd0
          rcases hc with hc | hc
          · exact Or.inl hc
          · exact Or.inr ⟨i, line, _, hl, hc, lineStep_same _ _ rfl (by rw [hfull]; decide)⟩
        · cases hco
    · -- REQUEST_DATA_TOKEN
      exact Or.inl (forwardRequest_lines _ _ _ _ _ _ h)
    · -- EVICTION
      cases hdr : deref (FindLine d msg.address true) with
      | none => simp [hdr] at h
      | some p =>
        obtain ⟨i, line, d0⟩ := p
        simp only [hdr] at h
        obtain ⟨hfull, hc⟩ := caseEviction_lines _ _ _ _ _ _ _ _ h
        rcases deref_FindLine _ _ _ _ _ _ hdr with ⟨hd0, hl, _, _⟩ | ⟨hco, _⟩
        · subst hd0
          rcases hc with hc | hc | hc
          · exact Or.inl hc
          · exact Or.inr ⟨i, line, _, hl, hc, lineStep_same _ _ rfl (by rw [hfull]; decide)⟩
          · refine Or.inr ⟨i, line, _, hl, hc, Or.inr (Or.inr (Or.inr ⟨hfull, rfl⟩)), ?_⟩
            intro hh; rw [hfull] at hh; cases hh
        · cases hco
    · -- UPDATE
      exact Or.inl (forwardRequest_lines _ _ _ _ _ _ h)
    · -- OTHER
      cases h

/-- `DoIncoming` leaves the table as its call of `OnMessageReceived` does. -/
theorem DoIncoming_inv (d d1 : RootDirectory) (e : Env) (r : Result)
    (h : DoIncoming d e = some (r, d1)) :
    ∃ msg rest ok msg1 d0, d.m_incoming = msg :: rest ∧
      OnMessageReceived d e msg = some (ok, msg1, d0) ∧
      r = (if ok then Result.SUCCESS else Result.FAILED) ∧
      d1 = { d0 with m_incoming :=
        if ok then bufferPop e.committing (msg1 :: rest) else msg1 :: rest } := by
  unfold DoIncoming at h
  cases hq : d.m_incoming with
  | nil => simp [hq] at h
  | cons msg rest =>
    simp only [hq] at h
    cases ho : OnMessageReceived d e msg with
    | none => simp [ho] at h
    | some p =>
      obtain ⟨ok, msg1, d0⟩ := p
      cases ok
      · simp only [ho, Option.some.injEq, Prod.mk.injEq] at h
        exact ⟨msg, rest, false, msg1, d0, rfl, ho, h.1.symm, h.2.symm⟩
      · simp only [ho, Option.some.injEq, Prod.mk.injEq] at h
        exact ⟨msg, rest, true, msg1, d0, rfl, ho, h.1.symm, h.2.symm⟩

/-- The outcomes of `DoRequests`: a stall that changes nothing, the move of
an `ignore` message to the response queue, a read, or a write. -/
theorem DoRequests_cases (d d1 : RootDirectory) (e : Env) (r : Result)
    (h : DoRequests d e = some (r, d1)) :
    ∃ msg rest, d.m_requests = msg :: rest ∧
      ((r = Result.FAILED ∧ d1 = d) ∨
       (r = Result.SUCCESS ∧ d.m_activeMsg = none ∧
        ((msg.ignore = true ∧ e.responsesRoom = true ∧
            d1 = { d with
              m_responses := if e.committing then d.m_responses ++ [msg] else d.m_responses
              m_requests := bufferPop e.committing (msg :: rest) }) ∨
         (msg.ignore = false ∧ msg.type = MessageType.REQUEST ∧ e.memReadOk = true ∧
            d1 = if e.committing then
              { d with
                memOps := d.memOps ++ [MemOp.Read msg.address d.m_lineSize]
                m_activeMsg := some msg
                m_requests := rest }
              else d) ∨
         (msg.ignore = false ∧ msg.type = MessageType.EVICTION ∧ e.memWriteOk = true ∧
            d1 = if e.committing then
              { d with
                memOps := d.memOps ++ [MemOp.Write msg.address msg.data.data msg.data.size]
                deleted := d.deleted ++ [msg]
                m_requests := rest }
              else d)))) := by
  obtain ⟨lines, ls, asc, sets, nc, inc, reqs, resps, act, snt, mo, del⟩ := d
  unfold DoRequests at h
  cases reqs with
  | nil => simp at h
  | cons msg rest =>
    refine ⟨msg, rest, rfl, ?_⟩
    cases act with
    | some a =>
      simp only [ne_eq, not_false_eq_true, if_true, Option.some.injEq, Prod.mk.injEq,
        reduceCtorEq] at h
      exact Or.inl ⟨h.1.symm, h.2.symm⟩
    | none =>
      simp only [ne_eq, not_true_eq_false, if_false] at h
      cases hc : e.committing <;> cases hi : msg.ignore <;> cases hr : e.responsesRoom <;>
        cases hmr : e.memReadOk <;> cases hmw : e.memWriteOk <;> cases ht : msg.type <;>
        simp [hc, hi, hr, hmr, hmw, ht, bufferPush, bufferPop, memoryRead, memoryWrite,
          deleteMsg] at h ⊢ <;>
        (obtain ⟨h1, h2⟩ := h; subst h1; subst h2; simp)

/-- The outcomes of `OnReadCompleted`: the active message is a Request of the
completed address; it is rewritten when committing, and the push on the
response queue is refused or accepted. -/
theorem OnReadCompleted_cases (d d1 : RootDirectory) (e : Env) (address : Nat)
    (data : MemData) (ok : Bool) (h : OnReadCompleted d e address data = some (ok, d1)) :
    ∃ active msg, d.m_activeMsg = some active ∧ active.address = address ∧
      active.type = MessageType.REQUEST ∧
      msg = (if e.committing then
        { active with type := MessageType.REQUEST_DATA_TOKEN, data := data } else active) ∧
      ((ok = false ∧ e.responsesRoom = false ∧ d1 = { d with m_activeMsg := some msg }) ∨
       (ok = true ∧ e.responsesRoom = true ∧
        d1 = { d with
          m_responses := if e.committing then d.m_responses ++ [msg] else d.m_responses
          m_activeMsg := if e.committing then none else some msg })) := by
  obtain ⟨lines, ls, asc, sets, nc, inc, reqs, resps, act, snt, mo, del⟩ := d
  unfold OnReadCompleted at h
  cases act with
  | none => simp at h
  | some active =>
    refine ⟨active, (if e.committing then
      { active with type := MessageType.REQUEST_DATA_TOKEN, data := data } else active), rfl, ?_⟩
    by_cases ha : active.address = address
    · by_cases ht : active.type = MessageType.REQUEST
      · refine ⟨ha, ht, rfl, ?_⟩
        cases hc : e.committing <;> cases hr : e.responsesRoom <;>
          simp [ha, ht, hc, hr, bufferPush] at h ⊢ <;>
          (obtain ⟨h1, h2⟩ := h; subst h1; subst h2; simp)
      · simp [ha, ht] at h
    · simp [ha] at h

/-- The outcomes of the block `if (!msg->ignore)` of `DoResponses`: skipped
for an `ignore` message; otherwise the line of the address is Loading, and
when committing the message is stamped and the line made Full. -/
theorem stampResponse_cases (d d0 : RootDirectory) (e : Env) (msg msg1 : Message)
    (h : stampResponse d e msg = some (msg1, d0)) :
    (msg.ignore = true ∧ msg1 = msg ∧ d0 = d) ∨
    (msg.ignore = false ∧ ∃ i line, d.m_lines[i]? = some line ∧
      line.state = LineState.LINE_LOADING ∧ line.tag = tagOf d msg.address ∧
      ((e.committing = false ∧ msg1 = msg ∧ d0 = d) ∨
       (e.committing = true ∧
        msg1 = { msg with tokens := d.m_numCaches % UINT_RANGE, sender := line.sender } ∧
        d0 = setLine d i { line with state := LineState.LINE_FULL }))) := by
  unfold stampResponse at h
  cases hi : msg.ignore
  · simp only [hi, if_true] at h
    right
    refine ⟨rfl, ?_⟩
    cases hdr : deref (FindLine d msg.address true) with
    | none => simp [hdr] at h
    | some p =>
      obtain ⟨i, line, d2⟩ := p
      simp only [hdr] at h
      rcases deref_FindLine _ _ _ _ _ _ hdr with ⟨hd2, hl, _, htag⟩ | ⟨hco, _⟩
      · subst hd2
        by_cases hs : line.state = LineState.LINE_LOADING
        · refine ⟨i, line, hl, hs, htag, ?_⟩
          cases hc : e.committing <;>
            simp only [hs, hc, ne_eq, not_true_eq_false, if_false, if_true,
              Bool.false_eq_true, Option.some.injEq, Prod.mk.injEq] at h
          · exact Or.inl ⟨rfl, h.1.symm, h.2.symm⟩
          · exact Or.inr ⟨rfl, h.1.symm, h.2.symm⟩
        · simp [hs] at h
      · cases hco
  · simp only [hi, Bool.true_eq_false, if_false, Option.some.injEq, Prod.mk.injEq] at h
    exact Or.inl ⟨rfl, h.1.symm, h.2.symm⟩

/-- The outcomes of `DoResponses`: the grant refused; or the block on the
line run and the send refused or accepted. -/
theorem DoResponses_cases (d d1 : RootDirectory) (e : Env) (r : Result)
    (h : DoResponses d e = some (r, d1)) :
    ∃ msg rest, d.m_responses = msg :: rest ∧
      ((e.grant = false ∧ r = Result.FAILED ∧ d1 = d) ∨
       (e.grant = true ∧ ∃ msg1 d0 msg2, stampResponse d e msg = some (msg1, d0) ∧
        msg2 = (if e.committing then { msg1 with ignore := false } else msg1) ∧
        ((e.freeSlots < MINSPACE_FORWARD ∧ r = Result.FAILED ∧
            d1 = { d0 with m_responses := msg2 :: rest }) ∨
         (MINSPACE_FORWARD ≤ e.freeSlots ∧ r = Result.SUCCESS ∧
            d1 = { d0 with
              sent := if e.committing then d0.sent ++ [msg2] else d0.sent
              m_responses := bufferPop e.committing (msg2 :: rest) })))) := by
  unfold DoResponses at h
  cases hq : d.m_responses with
  | nil => simp [hq] at h
  | cons msg rest =>
    refine ⟨msg, rest, rfl, ?_⟩
    simp only [hq] at h
    cases hg : e.grant
    · simp only [hg, if_true, Option.some.injEq, Prod.mk.injEq] at h
      exact Or.inl ⟨rfl, h.1.symm, h.2.symm⟩
    · simp only [hg, Bool.true_eq_false, if_false] at h
      right
      refine ⟨rfl, ?_⟩
      cases hst : stampResponse d e msg with
      | none => simp [hst] at h
      | some p =>
        obtain ⟨msg1, d0⟩ := p
        refine ⟨msg1, d0, (if e.committing then { msg1 with ignore := false } else msg1),
          rfl, rfl, ?_⟩
        simp only [hst, SendMessage] at h
        by_cases hf : MINSPACE_FORWARD ≤ e.freeSlots
        · simp only [hf, if_true, Option.some.injEq, Prod.mk.injEq] at h
          refine Or.inr ⟨hf, h.1.symm, ?_⟩
          rw [← h.2]
          cases e.committing <;> rfl
        · simp only [hf, if_false, Option.some.injEq, Prod.mk.injEq] at h
          exact Or.inl ⟨Nat.lt_of_not_le hf, h.1.symm, h.2.symm⟩

/-- `DoRequests` writes no line. -/
theorem DoRequests_lines (d d1 : RootDirectory) (e : Env) (r : Result)
    (h : DoRequests d e = some (r, d1)) : d1.m_lines = d.m_lines := by
  obtain ⟨msg, rest, _, hc⟩ := DoRequests_cases d d1 e r h
  rcases hc with ⟨_, hd⟩ | ⟨_, _, ⟨_, _, hd⟩ | ⟨_, _, _, hd⟩ | ⟨_, _, _, hd⟩⟩
  · rw [hd]
  · rw [hd]
  · rw [hd]; cases e.committing <;> rfl
  · rw [hd]; cases e.committing <;> rfl

/-- `OnReadCompleted` writes no line. -/
theorem OnReadCompleted_lines (d d1 : RootDirectory) (e : Env) (address : Nat)
    (data : MemData) (ok : Bool) (h : OnReadCompleted d e address data = some (ok, d1)) :
    d1.m_lines = d.m_lines := by
  obtain ⟨active, msg, _, _, _, _, hc⟩ := OnReadCompleted_cases d d1 e address data ok h
  rcases hc with ⟨_, _, hd⟩ | ⟨_, _, hd⟩ <;> rw [hd]

/-- `DoResponses` writes at most one line, and only from Loading to Full. -/
theorem DoResponses_lineChange (d d1 : RootDirectory) (e : Env) (r : Result)
    (h : DoResponses d e = some (r, d1)) : lineChange d.m_lines d1.m_lines := by
  obtain ⟨msg, rest, _, hc⟩ := DoResponses_cases d d1 e r h
  rcases hc with ⟨_, _, hd⟩ | ⟨_, msg1, d0, msg2, hst, _, hc⟩
  · exact Or.inl (by rw [hd])
  · have hd : d1.m_lines = d0.m_lines := by
      rcases hc with ⟨_, _, hd⟩ | ⟨_, _, hd⟩ <;> rw [hd]
    rw [hd]
    rcases stampResponse_cases d d0 e msg msg1 hst with
      ⟨_, _, h0⟩ | ⟨_, i, line, hl, hs, _, ⟨_, _, h0⟩ | ⟨_, _, h0⟩⟩
    · exact Or.inl (by rw [h0])
    · exact Or.inl (by rw [h0])
    · refine Or.inr ⟨i, line, { line with state := LineState.LINE_FULL }, hl, by rw [h0]; rfl,
        Or.inr (Or.inr (Or.inl ⟨hs, rfl⟩)), ?_⟩
      intro _ hh
      cases hh

/-- C4: every step of the controller that runs without a failed assertion
(`OnMessageReceived` on any message, `DoIncoming`, `DoRequests`,
`OnReadCompleted`, `DoResponses`) keeps the number of lines and takes every
line either to the same state or from Empty to Loading, from Loading to Full
or from Full to Empty; a line that is Loading before and after is untouched
(no new allocation on it); and Empty to Full, Loading to Empty and Full to
Loading are not among these pairs. -/
theorem line_state_cycle (d : RootDirectory) (e : Env) (msg : Message) (address : Nat)
    (data : MemData) :
    (∀ ok msg1 d1, OnMessageReceived d e msg = some (ok, msg1, d1) →
      linesStep d.m_lines d1.m_lines) ∧
    (∀ r d1, DoIncoming d e = some (r, d1) → linesStep d.m_lines d1.m_lines) ∧
    (∀ r d1, DoRequests d e = some (r, d1) → linesStep d.m_lines d1.m_lines) ∧
    (∀ ok d1, OnReadCompleted d e address data = some (ok, d1) →
      linesStep d.m_lines d1.m_lines) ∧
    (∀ r d1, DoResponses d e = some (r, d1) → linesStep d.m_lines d1.m_lines) ∧
    ¬ stateStep LineState.LINE_EMPTY LineState.LINE_FULL ∧
    ¬ stateStep LineState.LINE_LOADING LineState.LINE_EMPTY ∧
    ¬ stateStep LineState.LINE_FULL LineState.LINE_LOADING := by
  refine ⟨?_, ?_, ?_, ?_, ?_, ?_, ?_, ?_⟩
  · intro ok msg1 d1 h
    exact linesStep_of_lineChange _ _ (OnMessageReceived_lineChange d d1 e msg msg1 ok h)
  · intro r d1 h
    obtain ⟨m, rest, ok, msg1, d0, _, ho, _, hd⟩ := DoIncoming_inv d d1 e r h
    rw [hd]
    exact linesStep_of_lineChange _ _ (OnMessageReceived_lineChange d d0 e m msg1 ok ho)
  · intro r d1 h
    exact linesStep_of_lineChange _ _ (Or.inl (DoRequests_lines d d1 e r h))
  · intro ok d1 h
    exact linesStep_of_lineChange _ _ (Or.inl (OnReadCompleted_lines d d1 e address data ok h))
  · intro r d1 h
    exact linesStep_of_lineChange _ _ (DoResponses_lineChange d d1 e r h)
  · simp [stateStep]
  · simp [stateStep]
  · simp [stateStep]

/-! ## Requests with data -/

/-- The forward path always returns. -/
theorem forwardRequest_total (d : RootDirectory) (e : Env) (msg : Message) :
    ∃ ok msg1 d1, forwardRequest d e msg = some (ok, msg1, d1) := by
  unfold forwardRequest SendMessage bufferPush
  by_cases hf : MINSPACE_SHORTCUT ≤ e.freeSlots
  · simp [hf]
  · cases hr : e.requestsRoom <;> simp [hf, hr]

/-- C5: a RequestWithData whose address hits a Full line with `t` tokens.
With `t > 0` the message becomes a `REQUEST_DATA_TOKEN` with `t` tokens and
the line is left with 0 tokens; with `t = 0` the message and the line are
unchanged. In both cases the line stays Full, no other line changes, and the
call continues as the forward path on that message. -/
theorem request_data_takes_tokens (d : RootDirectory) (e : Env) (msg : Message)
    (i : Nat) (line : Line)
    (hgrant : e.grant = true) (hcommit : e.committing = true)
    (htype : msg.type = MessageType.REQUEST_DATA)
    (hhit : FindLineConst d msg.address = some (some i))
    (hline : d.m_lines[i]? = some line)
    (hfull : line.state = LineState.LINE_FULL) :
    (0 < line.tokens → ∃ ok msg1 d1, OnMessageReceived d e msg = some (ok, msg1, d1) ∧
      forwardRequest (setLine d i { line with tokens := 0 }) e
        { msg with type := MessageType.REQUEST_DATA_TOKEN, tokens := line.tokens }
        = some (ok, msg1, d1) ∧
      d1.m_lines = d.m_lines.set i { line with tokens := 0 } ∧
      ({ line with tokens := 0 } : Line).state = LineState.LINE_FULL ∧
      (∀ j, j ≠ i → d1.m_lines[j]? = d.m_lines[j]?)) ∧
    (line.tokens = 0 → ∃ ok msg1 d1, OnMessageReceived d e msg = some (ok, msg1, d1) ∧
      forwardRequest d e msg = some (ok, msg1, d1) ∧
      d1.m_lines = d.m_lines) := by
  have hstep : OnMessageReceived d e msg = caseRequestData d e msg i line := by
    unfold OnMessageReceived
    simp [hgrant, htype, FindLine_of_const_hit d msg.address i true hhit, deref, hline]
  constructor
  · intro ht
    obtain ⟨ok, msg1, d1, hf⟩ := forwardRequest_total (setLine d i { line with tokens := 0 }) e
      { msg with type := MessageType.REQUEST_DATA_TOKEN, tokens := line.tokens }
    have hl := forwardRequest_lines _ _ _ _ _ _ hf
    refine ⟨ok, msg1, d1, ?_, hf, hl, hfull, ?_⟩
    · rw [hstep, ← hf]
      unfold caseRequestData
      simp [hfull, ht, hcommit]
    · intro j hj
      rw [hl]
      simp [setLine, List.getElem?_set, Ne.symm hj]
  · intro ht
    obtain ⟨ok, msg1, d1, hf⟩ := forwardRequest_total d e msg
    refine ⟨ok, msg1, d1, ?_, hf, forwardRequest_lines _ _ _ _ _ _ hf⟩
    rw [hstep, ← hf]
    unfold caseRequestData
    simp [hfull, ht]

/-- Witness of C5: a Full line with 3 tokens and a RequestWithData, with room
on the ring: the message is sent as a `REQUEST_DATA_TOKEN` with 3 tokens and
the line keeps 0. -/
theorem request_data_takes_tokens_witness :
    ∃ ok msg1 d1, OnMessageReceived (dirWith LineState.LINE_FULL 3) envOk
        (mkMsg MessageType.REQUEST_DATA 0 false) = some (ok, msg1, d1) ∧
      forwardRequest (setLine (dirWith LineState.LINE_FULL 3) 3 ⟨LineState.LINE_FULL, 32, 0, 7⟩)
        envOk (mkMsg MessageType.REQUEST_DATA_TOKEN 3 false) = some (ok, msg1, d1) ∧
      d1.m_lines = (dirWith LineState.LINE_FULL 0).m_lines := by
  obtain ⟨ok, msg1, d1, h1, h2, h3, _⟩ :=
    (request_data_takes_tokens (dirWith LineState.LINE_FULL 3) envOk
      (mkMsg MessageType.REQUEST_DATA 0 false) 3 ⟨LineState.LINE_FULL, 32, 3, 7⟩
      (by decide) (by decide) (by decide) (by decide) (by decide) (by decide)).1 (by decide)
  exact ⟨ok, msg1, d1, h1, h2, h3⟩

/-! ## Forwarding -/

/-- The shortcut: with `MINSPACE_SHORTCUT` free slots the forward path sends
the message as it is and queues nothing. -/
theorem forwardRequest_shortcut (d : RootDirectory) (e : Env) (msg : Message)
    (hcommit : e.committing = true) (hfree : MINSPACE_SHORTCUT ≤ e.freeSlots) :
    forwardRequest d e msg = some (true, msg, { d with sent := d.sent ++ [msg] }) := by
  unfold forwardRequest SendMessage
  simp [hfree, hcommit]

/-- The slow path: with fewer than `MINSPACE_SHORTCUT` free slots the forward
path sends nothing, marks the message `ignore` and appends it to the request
queue. -/
theorem forwardRequest_slow (d : RootDirectory) (e : Env) (msg : Message)
    (hcommit : e.committing = true) (hfree : e.freeSlots < MINSPACE_SHORTCUT)
    (hroom : e.requestsRoom = true) :
    forwardRequest d e msg = some (true, { msg with ignore := true },
      { d with m_requests := d.m_requests ++ [{ msg with ignore := true }] }) := by
  unfold forwardRequest SendMessage bufferPush
  simp [Nat.not_le.mpr hfree, hcommit, hroom]

/-- `DoRequests` on a message marked `ignore`: it is moved to the response
queue; no backing-store operation, no other change. -/
theorem DoRequests_ignore (s : RootDirectory) (e : Env) (msg : Message) (rest : List Message)
    (hq : s.m_requests = msg :: rest) (hact : s.m_activeMsg = none)
    (hign : msg.ignore = true)
    (hcommit : e.committing = true) (hroom : e.responsesRoom = true) :
    DoRequests s e = some (Result.SUCCESS,
      { s with m_responses := s.m_responses ++ [msg], m_requests := rest }) := by
  unfold DoRequests
  simp [hq, hact, hign, hcommit, hroom, bufferPush, bufferPop]

/-- `DoResponses` on a message marked `ignore`: the flag is cleared, the
message is sent and popped; no line is looked up or written. -/
theorem DoResponses_ignore (s : RootDirectory) (e : Env) (msg : Message) (rest : List Message)
    (hq : s.m_responses = msg :: rest) (hign : msg.ignore = true)
    (hgrant : e.grant = true) (hcommit : e.committing = true)
    (hfree : MINSPACE_FORWARD ≤ e.freeSlots) :
    DoResponses s e = some (Result.SUCCESS,
      { s with sent := s.sent ++ [{ msg with ignore := false }], m_responses := rest }) := by
  unfold DoResponses
  simp [hq, hgrant, stampResponse, hign, hcommit, SendMessage, hfree, bufferPop]

/-- A message that passes through is handed to the forward path as it is,
and the table is not written on the way. -/
theorem OnMessageReceived_passesThrough (d : RootDirectory) (e : Env) (msg : Message)
    (hgrant : e.grant = true) (hpass : passesThrough d msg) :
    OnMessageReceived d e msg = forwardRequest d e msg := by
  unfold OnMessageReceived
  rcases hpass with ht | ht | ⟨ht, hsz, i, line, hhit, hline, hs⟩
  · simp [hgrant, ht]
  · simp [hgrant, ht]
  · have hne : line.state ≠ LineState.LINE_EMPTY := by
      rcases hs with hs | hs <;> rw [hs] <;> decide
    simp [hgrant, ht, hsz, FindLine_of_const_hit d msg.address i false hhit, deref, hline,
      caseRequest, hne]

/-! ## The outcomes of the ingress handler -/

/-- The early return of the scan is the hit of the read-only scan. -/
theorem scanSetConst_of_found (lines : List Line) (tag set i : Nat) (is : List Nat) :
    ∀ empty : Option Nat, scanSet lines tag set is empty = some (Scan.found i) →
      scanSetConst lines tag set is = some (some i) := by
  induction is with
  | nil => intro empty h; simp [scanSet] at h
  | cons x rest ih =>
    intro empty h
    unfold scanSet at h
    unfold scanSetConst
    cases hx : lines[set + x]? with
    | none => simp [hx] at h
    | some line =>
      simp only [hx] at h ⊢
      by_cases hs : line.state = LineState.LINE_EMPTY
      · simp only [hs, ne_eq, not_true_eq_false, false_and, if_false, if_true] at h ⊢
        exact ih _ h
      · by_cases ht : line.tag = tag
        · simp only [hs, ht, ne_eq, not_false_eq_true, and_self, if_true, if_false] at h ⊢
          simpa using h
        · simp only [hs, ht, ne_eq, not_false_eq_true, and_false, if_false] at h ⊢
          exact ih _ h

/-- A dereferenced lookup with `check_only` set is a hit of the read-only
lookup, and the directory is not written. -/
theorem deref_check_only (d d1 : RootDirectory) (address i : Nat) (line : Line)
    (h : deref (FindLine d address true) = some (i, line, d1)) :
    d1 = d ∧ FindLineConst d address = some (some i) ∧ d.m_lines[i]? = some line ∧
      line.state ≠ LineState.LINE_EMPTY := by
  rcases deref_FindLine _ _ _ _ _ _ h with ⟨hd, hl, hs, _⟩ | ⟨hco, _⟩
  · subst hd
    refine ⟨rfl, ?_, hl, hs⟩
    unfold deref at h
    unfold FindLine at h
    unfold FindLineConst
    by_cases hz : d1.m_lineSize = 0 ∨ d1.m_sets = 0
    · simp [hz] at h
    · simp only [hz, if_false] at h ⊢
      cases hscan : scanSet d1.m_lines (address / d1.m_lineSize / d1.m_sets)
          (address / d1.m_lineSize % d1.m_sets * d1.m_assoc) (List.range d1.m_assoc) none with
      | none => simp [hscan] at h
      | some sc =>
        cases sc with
        | found i0 =>
          simp only [hscan, hl] at h
          cases hl0 : d1.m_lines[i0]? with
          | none => simp [hl0] at h
          | some l0 =>
            simp only [hl0, Option.some.injEq, Prod.mk.injEq] at h
            rw [← h.1]
            exact scanSetConst_of_found _ _ _ _ _ _ hscan
        | missed em =>
          cases em <;> simp [hscan] at h
  · cases hco

/-- The outcomes of the Request case on an Empty line: the push on the
request queue is refused and nothing is written, or it is accepted and, when
committing, the line becomes Loading with the sender of the message. -/
theorem caseRequest_empty (d1 d2 : RootDirectory) (e : Env) (msg msg1 : Message) (ok : Bool)
    (i : Nat) (line : Line) (hs : line.state = LineState.LINE_EMPTY)
    (h : caseRequest d1 e msg i line = some (ok, msg1, d2)) :
    msg1 = msg ∧
      ((e.requestsRoom = false ∧ ok = false ∧ d2 = d1) ∨
       (e.requestsRoom = true ∧ ok = true ∧
        d2 = if e.committing then
          setLine { d1 with m_requests := d1.m_requests ++ [msg] } i
            { line with state := LineState.LINE_LOADING, sender := msg.sender }
          else d1)) := by
  unfold caseRequest at h
  simp only [hs, if_true, bufferPush] at h
  cases hr : e.requestsRoom <;> cases hc : e.committing <;>
    simp only [hr, hc, if_true, if_false, Bool.false_eq_true, Option.some.injEq,
      Prod.mk.injEq] at h <;>
    obtain ⟨h1, h2, h3⟩ := h <;> subst h1 <;> subst h2 <;> subst h3 <;> simp [hs]

/-- On a line that is not Empty the Request case is the forward path. -/
theorem caseRequest_nonempty (d1 : RootDirectory) (e : Env) (msg : Message)
    (i : Nat) (line : Line) (hs : line.state ≠ LineState.LINE_EMPTY) :
    caseRequest d1 e msg i line = forwardRequest d1 e msg := by
  unfold caseRequest
  simp [hs]

/-- The outcomes of the RequestWithData case: the line is Full, and the call
is the forward path, on the message with the tokens of the line when the line
has tokens and the run is committing. -/
theorem caseRequestData_cases (d1 d2 : RootDirectory) (e : Env) (msg msg1 : Message)
    (ok : Bool) (i : Nat) (line : Line)
    (h : caseRequestData d1 e msg i line = some (ok, msg1, d2)) :
    line.state = LineState.LINE_FULL ∧
      ((0 < line.tokens ∧ e.committing = true ∧
        forwardRequest (setLine d1 i { line with tokens := 0 }) e
          { msg with type := MessageType.REQUEST_DATA_TOKEN, tokens := line.tokens }
          = some (ok, msg1, d2)) ∨
       (¬ (0 < line.tokens ∧ e.committing = true) ∧
        forwardRequest d1 e msg = some (ok, msg1, d2))) := by
  unfold caseRequestData at h
  by_cases hs : line.state = LineState.LINE_FULL
  · refine ⟨hs, ?_⟩
    by_cases hc : 0 < line.tokens ∧ e.committing = true
    · rw [if_neg (by simpa using hs), if_pos hc] at h
      exact Or.inl ⟨hc.1, hc.2, h⟩
    · rw [if_neg (by simpa using hs), if_neg hc] at h
      exact Or.inr ⟨hc, h⟩
  · simp [hs] at h

/-- The outcomes of the Eviction case: the line is Full, the sum of the
tokens is at most `m_numCaches`, and the message is deleted with the sum
stored, or refused by the request queue, or queued for write-back, or
deleted, the line becoming Empty in the last two. -/
theorem caseEviction_cases (d1 d2 : RootDirectory) (e : Env) (msg msg1 : Message)
    (ok : Bool) (i : Nat) (line : Line)
    (h : caseEviction d1 e msg i line = some (ok, msg1, d2)) :
    line.state = LineState.LINE_FULL ∧ msg1 = msg ∧
      (((msg.tokens + line.tokens) % UINT_RANGE < d1.m_numCaches ∧ ok = true ∧
        d2 = if e.committing then
          deleteMsg (setLine d1 i
            { line with tokens := (msg.tokens + line.tokens) % UINT_RANGE }) msg
          else d1) ∨
       ((msg.tokens + line.tokens) % UINT_RANGE = d1.m_numCaches ∧ msg.dirty = true ∧
        e.requestsRoom = false ∧ ok = false ∧ d2 = d1) ∨
       ((msg.tokens + line.tokens) % UINT_RANGE = d1.m_numCaches ∧ msg.dirty = true ∧
        e.requestsRoom = true ∧ ok = true ∧
        d2 = if e.committing then
          setLine { d1 with m_requests := d1.m_requests ++ [msg] } i
            { line with state := LineState.LINE_EMPTY }
          else d1) ∨
       ((msg.tokens + line.tokens) % UINT_RANGE = d1.m_numCaches ∧ msg.dirty = false ∧
        ok = true ∧
        d2 = if e.committing then
          setLine (deleteMsg d1 msg) i { line with state := LineState.LINE_EMPTY }
          else d1)) := by
  unfold caseEviction at h
  by_cases hs : line.state = LineState.LINE_FULL
  · refine ⟨hs, ?_⟩
    rw [if_neg (by simpa using hs)] at h
    simp only at h
    by_cases h1 : d1.m_numCaches < (msg.tokens + line.tokens) % UINT_RANGE
    · simp [h1] at h
    · rw [if_neg h1] at h
      by_cases h2 : (msg.tokens + line.tokens) % UINT_RANGE < d1.m_numCaches
      · rw [if_pos h2] at h
        simp only [Option.some.injEq, Prod.mk.injEq] at h
        exact ⟨h.2.1.symm, Or.inl ⟨h2, h.1.symm, h.2.2.symm⟩⟩
      · rw [if_neg h2] at h
        have h3 : (msg.tokens + line.tokens) % UINT_RANGE = d1.m_numCaches := by omega
        cases hd : msg.dirty <;> cases hr : e.requestsRoom <;> cases hc : e.committing <;>
          simp only [hd, hr, hc, bufferPush, if_true, if_false, Bool.false_eq_true,
            Option.some.injEq, Prod.mk.injEq] at h <;>
          obtain ⟨h4, h5, h6⟩ := h <;> subst h4 <;> subst h5 <;> subst h6 <;>
          simp [h3]
  · simp [hs] at h

/-- The outcomes of `OnMessageReceived`: the grant refused; an Update or a
RequestWithDataAndTokens forwarded; a Request looked up with allocation and
handled by the Request case; a RequestWithData or an Eviction whose lookup
hit, handled by its case on the unwritten directory. -/
theorem OnMessageReceived_cases (d d1 : RootDirectory) (e : Env) (msg msg1 : Message)
    (ok : Bool) (h : OnMessageReceived d e msg = some (ok, msg1, d1)) :
    (e.grant = false ∧ ok = false ∧ msg1 = msg ∧ d1 = d) ∨
    (e.grant = true ∧
      (((msg.type = MessageType.UPDATE ∨ msg.type = MessageType.REQUEST_DATA_TOKEN) ∧
          forwardRequest d e msg = some (ok, msg1, d1)) ∨
       (msg.type = MessageType.REQUEST ∧ msg.data.size = d.m_lineSize ∧
          ∃ i line d0, deref (FindLine d msg.address false) = some (i, line, d0) ∧
            caseRequest d0 e msg i line = some (ok, msg1, d1)) ∨
       (msg.type = MessageType.REQUEST_DATA ∧
          ∃ i line, FindLineConst d msg.address = some (some i) ∧
            d.m_lines[i]? = some line ∧
            caseRequestData d e msg i line = some (ok, msg1, d1)) ∨
       (msg.type = MessageType.EVICTION ∧
          ∃ i line, FindLineConst d msg.address = some (some i) ∧
            d.m_lines[i]? = some line ∧
            caseEviction d e msg i line = some (ok, msg1, d1)))) := by
  unfold OnMessageReceived at h
  cases hg : e.grant
  · simp only [hg, if_true, Option.some.injEq, Prod.mk.injEq] at h
    exact Or.inl ⟨rfl, h.1.symm, h.2.1.symm, h.2.2.symm⟩
  · simp only [hg, Bool.true_eq_false, if_false] at h
    right
    refine ⟨rfl, ?_⟩
    cases ht : msg.type <;> simp only [ht] at h
    · -- REQUEST
      by_cases hsz : msg.data.size = d.m_lineSize
      · rw [if_neg (by simpa using hsz)] at h
        cases hdr : deref (FindLine d msg.address false) with
        | none => simp [hdr] at h
        | some p =>
          obtain ⟨i, line, d0⟩ := p
          simp only [hdr] at h
          exact Or.inr (Or.inl ⟨rfl, hsz, i, line, d0, rfl, h⟩)
      · simp [hsz] at h
    · -- REQUEST_DATA
      cases hdr : deref (FindLine d msg.address true) with
      | none => simp [hdr] at h
      | some p =>
        obtain ⟨i, line, d0⟩ := p
        simp only [hdr] at h
        obtain ⟨hd0, hhit, hl, _⟩ := deref_check_only _ _ _ _ _ hdr
        subst hd0
        exact Or.inr (Or.inr (Or.inl ⟨rfl, i, line, hhit, hl, h⟩))
    · -- REQUEST_DATA_TOKEN
      exact Or.inl ⟨Or.inr rfl, h⟩
    · -- EVICTION
      cases hdr : deref (FindLine d msg.address true) with
      | none => simp [hdr] at h
      | some p =>
        obtain ⟨i, line, d0⟩ := p
        simp only [hdr] at h
        obtain ⟨hd0, hhit, hl, _⟩ := deref_check_only _ _ _ _ _ hdr
        subst hd0
        exact Or.inr (Or.inr (Or.inr ⟨rfl, i, line, hhit, hl, h⟩))
    · -- UPDATE
      exact Or.inl ⟨Or.inl rfl, h⟩
    · -- OTHER
      cases h

/-- C6: an Update, a RequestWithDataAndTokens, or a Request that hits a
Loading or Full line. Ingress writes no line and issues no backing-store
operation; with room on the ring the message is sent as received, and
otherwise it is queued with only `ignore` set. `DoRequests` moves the queued
message to the response queue without a backing-store operation, and
`DoResponses` sends it with `ignore` cleared and writes no line: the message
sent has the kind, address, payload, token count, sender and dirty flag of
the one received. -/
theorem pass_through_unchanged (d : RootDirectory) (e : Env) (msg : Message)
    (hgrant : e.grant = true) (hcommit : e.committing = true)
    (hpass : passesThrough d msg) :
    ∃ ok msg1 d1, OnMessageReceived d e msg = some (ok, msg1, d1) ∧
      d1.m_lines = d.m_lines ∧ d1.memOps = d.memOps ∧
      ((MINSPACE_SHORTCUT ≤ e.freeSlots ∧ ok = true ∧ d1.sent = d.sent ++ [msg] ∧
          d1.m_requests = d.m_requests) ∨
       (e.freeSlots < MINSPACE_SHORTCUT ∧ d1.sent = d.sent ∧
          msg1 = { msg with ignore := true } ∧
          (ok = true → d1.m_requests = d.m_requests ++ [{ msg with ignore := true }]) ∧
          (ok = false → d1.m_requests = d.m_requests))) ∧
      (∀ (s : RootDirectory) (e2 : Env) (rest : List Message),
        s.m_requests = { msg with ignore := true } :: rest → s.m_activeMsg = none →
        e2.committing = true → e2.responsesRoom = true →
        DoRequests s e2 = some (Result.SUCCESS,
          { s with
            m_responses := s.m_responses ++ [{ msg with ignore := true }]
            m_requests := rest })) ∧
      (∀ (s : RootDirectory) (e3 : Env) (rest : List Message),
        s.m_responses = { msg with ignore := true } :: rest →
        e3.grant = true → e3.committing = true → MINSPACE_FORWARD ≤ e3.freeSlots →
        DoResponses s e3 = some (Result.SUCCESS,
          { s with
            sent := s.sent ++ [{ msg with ignore := false }]
            m_responses := rest })) ∧
      (({ msg with ignore := false } : Message).type = msg.type ∧
        ({ msg with ignore := false } : Message).address = msg.address ∧
        ({ msg with ignore := false } : Message).data = msg.data ∧
        ({ msg with ignore := false } : Message).tokens = msg.tokens ∧
        ({ msg with ignore := false } : Message).sender = msg.sender ∧
        ({ msg with ignore := false } : Message).dirty = msg.dirty) := by
  have hstep := OnMessageReceived_passesThrough d e msg hgrant hpass
  obtain ⟨ok, msg1, d1, hf⟩ := forwardRequest_total d e msg
  refine ⟨ok, msg1, d1, by rw [hstep, hf], forwardRequest_lines _ _ _ _ _ _ hf, ?_, ?_, ?_, ?_,
    ⟨rfl, rfl, rfl, rfl, rfl, rfl⟩⟩
  · rcases forwardRequest_cases d d1 e msg msg1 ok hf with ⟨_, _, _, hd⟩ | ⟨_, _, hd | hd⟩
    · rw [hd, hcommit]; rfl
    · rw [hd.2.2]
    · rw [hd.2.2]
  · rcases forwardRequest_cases d d1 e msg msg1 ok hf with
      ⟨hfree, hok, _, hd⟩ | ⟨hfree, hm, hd | hd⟩
    · rw [hcommit] at hd
      exact Or.inl ⟨hfree, hok, by rw [hd]; rfl, by rw [hd]; rfl⟩
    · rw [hcommit] at hm
      refine Or.inr ⟨hfree, by rw [hd.2.2], hm, ?_, ?_⟩
      · intro h; rw [hd.2.1] at h; cases h
      · intro _; rw [hd.2.2]
    · rw [hcommit] at hm
      refine Or.inr ⟨hfree, by rw [hd.2.2], hm, ?_, ?_⟩
      · intro _; rw [hd.2.2, hcommit, hm]; rfl
      · intro h; rw [hd.2.1] at h; cases h
  · intro s e2 rest hq hact hc hr
    exact DoRequests_ignore s e2 _ rest hq hact rfl hc hr
  · intro s e3 rest hq hg hc hfree
    exact DoResponses_ignore s e3 { msg with ignore := true } rest hq rfl hg hc hfree

/-- Witness of C6: an Update on the all-Empty directory with room on the
ring is sent as received. -/
theorem pass_through_unchanged_witness :
    ∃ ok msg1 d1, OnMessageReceived emptyDir envOk (mkMsg MessageType.UPDATE 2 false)
        = some (ok, msg1, d1) ∧
      d1.m_lines = emptyDir.m_lines ∧ d1.memOps = [] ∧
      ((MINSPACE_SHORTCUT ≤ 2 ∧ ok = true ∧ d1.sent = [mkMsg MessageType.UPDATE 2 false] ∧
          d1.m_requests = []) ∨
       (2 < MINSPACE_SHORTCUT ∧ d1.sent = [] ∧
          msg1 = { mkMsg MessageType.UPDATE 2 false with ignore := true } ∧
          (ok = true → d1.m_requests = [{ mkMsg MessageType.UPDATE 2 false with ignore := true }]) ∧
          (ok = false → d1.m_requests = []))) := by
  obtain ⟨ok, msg1, d1, h1, h2, h3, h4, _⟩ :=
    pass_through_unchanged emptyDir envOk (mkMsg MessageType.UPDATE 2 false)
      (by decide) (by decide) (Or.inl (by decide))
  exact ⟨ok, msg1, d1, h1, h2, h3, h4⟩

/-- C7: a message on the forward path while the ring has fewer than
`MINSPACE_SHORTCUT` free slots is not sent; it is marked `ignore` and
appended to the request queue, and the call returns true, so that the ingress
step of a message that passes through succeeds. `DoRequests` on it appends it
to the response queue and issues no backing-store operation. `DoResponses` on
it, with the grant and `MINSPACE_FORWARD` free slots, sends it and pops it;
no line is looked up or written. -/
theorem slow_path_delivers (d : RootDirectory) (e : Env) (msg : Message)
    (hcommit : e.committing = true) (hfree : e.freeSlots < MINSPACE_SHORTCUT)
    (hroom : e.requestsRoom = true) :
    forwardRequest d e msg = some (true, { msg with ignore := true },
      { d with m_requests := d.m_requests ++ [{ msg with ignore := true }] }) ∧
    (∀ rest, e.grant = true → passesThrough d msg → d.m_incoming = msg :: rest →
      DoIncoming d e = some (Result.SUCCESS,
        { d with
          m_requests := d.m_requests ++ [{ msg with ignore := true }]
          m_incoming := rest })) ∧
    (∀ (s : RootDirectory) (e2 : Env) (rest : List Message),
      s.m_requests = { msg with ignore := true } :: rest → s.m_activeMsg = none →
      e2.committing = true → e2.responsesRoom = true →
      DoRequests s e2 = some (Result.SUCCESS,
        { s with
          m_responses := s.m_responses ++ [{ msg with ignore := true }]
          m_requests := rest })) ∧
    (∀ (s : RootDirectory) (e3 : Env) (rest : List Message),
      s.m_responses = { msg with ignore := true } :: rest →
      e3.grant = true → e3.committing = true → MINSPACE_FORWARD ≤ e3.freeSlots →
      DoResponses s e3 = some (Result.SUCCESS,
        { s with
          sent := s.sent ++ [{ msg with ignore := false }]
          m_responses := rest })) := by
  have hf := forwardRequest_slow d e msg hcommit hfree hroom
  refine ⟨hf, ?_, ?_, ?_⟩
  · intro rest hg hpass hq
    unfold DoIncoming
    rw [hq]
    simp only
    rw [OnMessageReceived_passesThrough d e msg hg hpass, hf]
    simp [bufferPop, hcommit]
  · intro s e2 rest hq hact hc hr
    exact DoRequests_ignore s e2 _ rest hq hact rfl hc hr
  · intro s e3 rest hq hg hc hfr
    exact DoResponses_ignore s e3 { msg with ignore := true } rest hq rfl hg hc hfr

/-- Witness of C7: an Update with one free slot on the ring goes the slow
way. -/
theorem slow_path_delivers_witness :
    forwardRequest emptyDir envSlow (mkMsg MessageType.UPDATE 2 false)
      = some (true, { mkMsg MessageType.UPDATE 2 false with ignore := true },
        { emptyDir with
          m_requests := [{ mkMsg MessageType.UPDATE 2 false with ignore := true }] }) :=
  (slow_path_delivers emptyDir envSlow (mkMsg MessageType.UPDATE 2 false)
    (by decide) (by decide) (by decide)).1

/-- The block on the line in `DoResponses` sends nothing. -/
theorem stampResponse_sent (d d0 : RootDirectory) (e : Env) (msg msg1 : Message)
    (h : stampResponse d e msg = some (msg1, d0)) : d0.sent = d.sent := by
  rcases stampResponse_cases d d0 e msg msg1 h with
    ⟨_, _, h0⟩ | ⟨_, i, line, _, _, _, ⟨_, _, h0⟩ | ⟨_, _, h0⟩⟩ <;> rw [h0]
  rfl

/-- No two fates happen to the same message in the same call. -/
theorem Fate.happened_unique (f g : Fate) (d d1 : RootDirectory) (msg msg1 : Message)
    (hf : f.happened d msg msg1 d1) (hg : g.happened d msg msg1 d1) : f = g := by
  have hlen : ∀ (l : List Message) (x : Message), l ++ [x] ≠ l := by
    intro l x h
    have := congrArg List.length h
    simp at this
  cases f <;> cases g <;> first
    | rfl
    | (exfalso
       simp only [Fate.happened] at hf hg
       first
        | (obtain ⟨ht, _⟩ := hf; obtain ⟨ht2, _⟩ := hg; rw [ht] at ht2
           exact absurd ht2 (by decide))
        | (obtain ⟨_, _, _, _, i, l, hl, hs, hl1⟩ := hf
           obtain ⟨_, hpres, _⟩ := hg
           have := hpres i l _ hl hl1
           rw [hs] at this; cases this)
        | (obtain ⟨_, hpres, _⟩ := hf
           obtain ⟨_, _, _, _, i, l, hl, hs, hl1⟩ := hg
           have := hpres i l _ hl hl1
           rw [hs] at this; cases this)
        | (obtain ⟨hdel, _, _⟩ := hf
           obtain ⟨_, hdel2, _⟩ := hg
           rw [hdel] at hdel2
           exact hlen _ _ hdel2.symm)
        | (obtain ⟨_, hdel2, _⟩ := hf
           obtain ⟨hdel, _, _⟩ := hg
           rw [hdel] at hdel2
           exact hlen _ _ hdel2.symm)
        | (obtain ⟨_, hpres, _⟩ := hf
           obtain ⟨_, _, ⟨i, l, _, hl, hs, hl1⟩, _⟩ := hg
           have := hpres i l _ hl hl1
           rw [hs] at this; cases this)
        | (obtain ⟨_, _, ⟨i, l, _, hl, hs, hl1⟩, _⟩ := hf
           obtain ⟨_, hpres, _⟩ := hg
           have := hpres i l _ hl hl1
           rw [hs] at this; cases this)
        | (obtain ⟨_, _, _, _, i, l, hi, hl, hs, hl1⟩ := hf
           obtain ⟨_, _, ⟨i2, l2, hi2, hl2, _, hl3⟩, _⟩ := hg
           rw [hi] at hi2
           simp only [Option.some.injEq] at hi2
           subst hi2
           rw [hl] at hl2
           cases hl2
           rw [hl1] at hl3
           simp only [Option.some.injEq, Line.mk.injEq] at hl3
           rw [hs] at hl3
           exact absurd hl3.1 (by decide))
        | (obtain ⟨_, _, ⟨i2, l2, hi2, hl2, _, hl3⟩, _⟩ := hf
           obtain ⟨_, _, _, _, i, l, hi, hl, hs, hl1⟩ := hg
           rw [hi] at hi2
           simp only [Option.some.injEq] at hi2
           subst hi2
           rw [hl] at hl2
           cases hl2
           rw [hl1] at hl3
           simp only [Option.some.injEq, Line.mk.injEq] at hl3
           rw [hs] at hl3
           exact absurd hl3.1 (by decide)))

/-- An accepted call of the forward path is the fate `forward`, seen from any
directory that differs from the one it ran on only inside lines that kept
their state. -/
theorem forward_happened (d d0 d1 : RootDirectory) (e : Env) (m msg msg1 : Message)
    (hcommit : e.committing = true)
    (h : forwardRequest d0 e m = some (true, msg1, d1))
    (hdel : d0.deleted = d.deleted) (hsent : d0.sent = d.sent)
    (hreq : d0.m_requests = d.m_requests)
    (hst : ∀ (j : Nat) (l l1 : Line), d.m_lines[j]? = some l → d0.m_lines[j]? = some l1 →
      l1.state = l.state) :
    Fate.forward.happened d msg msg1 d1 := by
  simp only [Fate.happened]
  rcases forwardRequest_cases d0 d1 e m msg1 true h with ⟨_, _, hm, hd⟩ | ⟨_, hm, hd | hd⟩
  · rw [hcommit] at hd
    subst hd
    subst hm
    exact ⟨hdel, hst, Or.inl ⟨by simp [hsent], hreq⟩⟩
  · exact absurd hd.2.1 (by decide)
  · rw [hcommit] at hm
    obtain ⟨_, _, hd⟩ := hd
    rw [hcommit] at hd
    subst hd
    refine ⟨hdel, hst, Or.inr ⟨hsent, by simp [hm], by simp [hreq]⟩⟩

/-- C9: a message for which `OnMessageReceived` returns true met exactly one
fate: it was queued as the read of a line allocated for it and set Loading;
or forwarded (sent on the ring, or queued marked `ignore`); or deleted with
its tokens added to the line; or consumed as a full eviction (queued for
write-back when dirty, deleted otherwise). -/
theorem accepted_message_one_fate (d d1 : RootDirectory) (e : Env) (msg msg1 : Message)
    (hcommit : e.committing = true)
    (h : OnMessageReceived d e msg = some (true, msg1, d1)) :
    ∃! f : Fate, f.happened d msg msg1 d1 := by
  have hex : ∃ f : Fate, f.happened d msg msg1 d1 := by
    have hsame : ∀ (j : Nat) (l l1 : Line), d.m_lines[j]? = some l → d.m_lines[j]? = some l1 →
        l1.state = l.state := by
      intro j l l1 h1 h2
      rw [h1] at h2
      cases h2
      rfl
    rcases OnMessageReceived_cases d d1 e msg msg1 true h with
      ⟨_, hok, _⟩ | ⟨_, ⟨_, hf⟩ | ⟨ht, _, i, line, d0, hdr, hc⟩ | ⟨_, i, line, _, hl, hc⟩ |
        ⟨ht, i, line, hhit, hl, hc⟩⟩
    · cases hok
    · exact ⟨Fate.forward, forward_happened d d d1 e msg msg msg1 hcommit hf rfl rfl rfl hsame⟩
    · rcases deref_FindLine _ _ _ _ _ _ hdr with ⟨hd0, hl, hs, _⟩ | ⟨_, l, hl, hle, hline, hd0⟩
      · rw [hd0, caseRequest_nonempty _ _ _ _ _ hs] at hc
        exact ⟨Fate.forward, forward_happened d d d1 e msg msg msg1 hcommit hc rfl rfl rfl hsame⟩
      · have hs : line.state = LineState.LINE_EMPTY := by rw [hline]
        have hi : i < d.m_lines.length := by
          rcases Nat.lt_or_ge i d.m_lines.length with h | h
          · exact h
          · rw [List.getElem?_eq_none h] at hl; cases hl
        obtain ⟨_, hr | hr⟩ := caseRequest_empty _ _ _ _ _ _ _ _ hs hc
        · exact absurd hr.2.1 (by decide)
        · obtain ⟨_, _, hd1⟩ := hr
          rw [hcommit] at hd1
          subst hd1
          subst hd0
          refine ⟨Fate.allocateAndQueue, ?_⟩
          simp only [Fate.happened]
          refine ⟨ht, rfl, rfl, rfl, i, l, hl, hle, ?_⟩
          simp [setLine, hi, hline]
    · obtain ⟨hfull, ⟨_, _, hf⟩ | ⟨_, hf⟩⟩ := caseRequestData_cases _ _ _ _ _ _ _ _ hc
      · refine ⟨Fate.forward, forward_happened d _ d1 e _ msg msg1 hcommit hf rfl rfl rfl ?_⟩
        intro j l l1 h1 h2
        by_cases hji : i = j
        · subst hji
          have hi : i < d.m_lines.length := by
            rcases Nat.lt_or_ge i d.m_lines.length with h | h
            · exact h
            · rw [List.getElem?_eq_none h] at hl; cases hl
          rw [hl] at h1
          cases h1
          simp only [setLine, List.getElem?_set, hi, if_true, Option.some.injEq] at h2
          rw [← h2]
        · simp only [setLine, List.getElem?_set_ne hji] at h2
          exact hsame j l l1 h1 h2
      · exact ⟨Fate.forward, forward_happened d d d1 e msg msg msg1 hcommit hf rfl rfl rfl hsame⟩
    · have hi : i < d.m_lines.length := by
        rcases Nat.lt_or_ge i d.m_lines.length with h | h
        · exact h
        · rw [List.getElem?_eq_none h] at hl; cases hl
      obtain ⟨hfull, _, hr | hr | hr | hr⟩ := caseEviction_cases _ _ _ _ _ _ _ _ hc
      · obtain ⟨_, _, hd1⟩ := hr
        rw [hcommit] at hd1
        subst hd1
        refine ⟨Fate.discardWithTokens, ?_⟩
        simp only [Fate.happened]
        exact ⟨ht, rfl, rfl, rfl, i, line, hhit, hl, hfull, by simp [deleteMsg, setLine, hi]⟩
      · exact absurd hr.2.2.2.1 (by decide)
      · obtain ⟨_, hd, _, _, hd1⟩ := hr
        rw [hcommit] at hd1
        subst hd1
        refine ⟨Fate.discardAsWriteback, ?_⟩
        simp only [Fate.happened]
        exact ⟨ht, rfl, ⟨i, line, hhit, hl, hfull, by simp [setLine, hi]⟩,
          Or.inl ⟨hd, rfl, rfl⟩⟩
      · obtain ⟨_, hd, _, hd1⟩ := hr
        rw [hcommit] at hd1
        subst hd1
        refine ⟨Fate.discardAsWriteback, ?_⟩
        simp only [Fate.happened]
        exact ⟨ht, rfl, ⟨i, line, hhit, hl, hfull, by simp [setLine, deleteMsg, hi]⟩,
          Or.inr ⟨hd, rfl, rfl⟩⟩
  obtain ⟨f, hf⟩ := hex
  exact ⟨f, hf, fun g hg => Fate.happened_unique g f d d1 msg msg1 hg hf⟩

/-- Witness of C9: an Eviction with 2 tokens on a Full line with 1 token is
deleted with its tokens added. -/
theorem accepted_message_one_fate_witness :
    ∃! f : Fate, f.happened (dirWith LineState.LINE_FULL 1)
      (mkMsg MessageType.EVICTION 2 false) (mkMsg MessageType.EVICTION 2 false)
      (deleteMsg (dirWith LineState.LINE_FULL 3) (mkMsg MessageType.EVICTION 2 false)) :=
  accepted_message_one_fate (dirWith LineState.LINE_FULL 1) _ envOk
    (mkMsg MessageType.EVICTION 2 false) (mkMsg MessageType.EVICTION 2 false)
    (by decide) (by decide)

/-! ## Failed steps -/

/-- A scan that runs to the end of the loop is a miss of the read-only
scan. -/
theorem scanSetConst_of_missed (lines : List Line) (tag set : Nat) (is : List Nat) :
    ∀ empty empty1 : Option Nat, scanSet lines tag set is empty = some (Scan.missed empty1) →
      scanSetConst lines tag set is = some none := by
  induction is with
  | nil => intro _ _ _; rfl
  | cons x rest ih =>
    intro empty empty1 h
    unfold scanSet at h
    unfold scanSetConst
    cases hx : lines[set + x]? with
    | none => simp [hx] at h
    | some line =>
      simp only [hx] at h ⊢
      by_cases hs : line.state = LineState.LINE_EMPTY
      · simp only [hs, ne_eq, not_true_eq_false, false_and, if_false, if_true] at h ⊢
        exact ih _ _ h
      · by_cases ht : line.tag = tag
        · simp [hs, ht] at h
        · simp only [hs, ht, ne_eq, not_false_eq_true, and_false, if_false] at h ⊢
          exact ih _ _ h

/-- A lookup that returns an Empty line allocated it: the read-only lookup
misses. -/
theorem FindLineConst_of_alloc (d d0 : RootDirectory) (address i : Nat) (line : Line)
    (check_only : Bool)
    (h : deref (FindLine d address check_only) = some (i, line, d0))
    (hs : line.state = LineState.LINE_EMPTY) : FindLineConst d address = some none := by
  rcases deref_FindLine _ _ _ _ _ _ h with ⟨_, _, hne, _⟩ | ⟨_, l, hl, hle, hline, hd0⟩
  · exact absurd hs hne
  · unfold deref FindLine at h
    unfold FindLineConst
    by_cases hz : d.m_lineSize = 0 ∨ d.m_sets = 0
    · simp [hz] at h
    · simp only [hz, if_false] at h ⊢
      cases hscan : scanSet d.m_lines (address / d.m_lineSize / d.m_sets)
          (address / d.m_lineSize % d.m_sets * d.m_assoc) (List.range d.m_assoc) none with
      | none => simp [hscan] at h
      | some sc =>
        cases sc with
        | found i0 =>
          obtain ⟨l0, hl0, hs0, _⟩ := scanSet_found _ _ _ _ _ _ hscan
          simp only [hscan, hl0, Option.some.injEq, Prod.mk.injEq] at h
          rw [← h.2.1] at hs
          exact absurd hs hs0
        | missed em => exact scanSetConst_of_missed _ _ _ _ _ _ hscan

/-- C11: while the active slot holds a message, `DoRequests` returns FAILED
whatever is at the head of the request queue, and the directory (queues,
traces of backing-store operations, table) is as before; and a `DoRequests`
that changes the active slot found it empty, so a second read is never
issued while one is outstanding. -/
theorem one_read_outstanding (d : RootDirectory) (e : Env) :
    (∀ active msg rest, d.m_activeMsg = some active → d.m_requests = msg :: rest →
      DoRequests d e = some (Result.FAILED, d)) ∧
    (∀ r d1, DoRequests d e = some (r, d1) → d1.m_activeMsg ≠ d.m_activeMsg →
      d.m_activeMsg = none ∧ ∃ msg, d1.m_activeMsg = some msg ∧
        d1.memOps = d.memOps ++ [MemOp.Read msg.address d.m_lineSize]) ∧
    (∀ r d1, DoRequests d e = some (r, d1) → d.m_activeMsg ≠ none →
      r = Result.FAILED ∧ d1 = d) := by
  refine ⟨?_, ?_, ?_⟩
  · intro active msg rest ha hq
    unfold DoRequests
    simp [hq, ha]
  · intro r d1 h hne
    obtain ⟨msg, rest, _, hc⟩ := DoRequests_cases d d1 e r h
    rcases hc with ⟨_, hd⟩ | ⟨_, ha, ⟨_, _, hd⟩ | ⟨_, _, _, hd⟩ | ⟨_, _, _, hd⟩⟩
    · rw [hd] at hne; exact absurd rfl hne
    · rw [hd] at hne; exact absurd rfl hne
    · cases hc : e.committing
      · rw [hc] at hd
        simp only [Bool.false_eq_true, if_false] at hd
        rw [hd] at hne; exact absurd rfl hne
      · rw [hc] at hd
        simp only [if_true] at hd
        exact ⟨ha, msg, by rw [hd], by rw [hd]⟩
    · exfalso
      apply hne
      rw [hd]
      cases e.committing <;> rfl
  · intro r d1 h hne
    obtain ⟨msg, rest, _, hc⟩ := DoRequests_cases d d1 e r h
    rcases hc with ⟨hr, hd⟩ | ⟨_, ha, _⟩
    · exact ⟨hr, hd⟩
    · exact absurd ha hne

/-- Witness of C11: with a read outstanding and a Request at the head of the
request queue, `DoRequests` stalls. -/
theorem one_read_outstanding_witness :
    DoRequests dirStalled envOk = some (Result.FAILED, dirStalled) :=
  (one_read_outstanding dirStalled envOk).1 (mkMsg MessageType.REQUEST 0 false)
    (mkMsg MessageType.REQUEST 0 false) [] (by decide) (by decide)

/-! ## The lookup, on a well-formed table -/

/-- In a well-formed table every line of the selected set exists. -/
theorem setBase_bound (d : RootDirectory) (address k : Nat) (hwf : wellFormed d)
    (hk : k < d.m_assoc) : setBase d address + k < d.m_lines.length := by
  obtain ⟨_, hs, hlen⟩ := hwf
  rw [hlen]
  unfold setBase
  have h1 : address / d.m_lineSize % d.m_sets < d.m_sets := Nat.mod_lt _ hs
  calc address / d.m_lineSize % d.m_sets * d.m_assoc + k
      < address / d.m_lineSize % d.m_sets * d.m_assoc + d.m_assoc := by omega
    _ = (address / d.m_lineSize % d.m_sets + 1) * d.m_assoc := by ring
    _ ≤ d.m_sets * d.m_assoc := Nat.mul_le_mul_right _ h1
    _ = d.m_assoc * d.m_sets := Nat.mul_comm _ _

/-- The read-only scan returns when every line it reads exists. -/
theorem scanSetConst_total (lines : List Line) (tag set : Nat) (is : List Nat)
    (hb : ∀ k ∈ is, set + k < lines.length) :
    ∃ r, scanSetConst lines tag set is = some r := by
  induction is with
  | nil => exact ⟨none, rfl⟩
  | cons x rest ih =>
    unfold scanSetConst
    have hx : set + x < lines.length := hb x (List.mem_cons_self _ _)
    rw [List.getElem?_eq_getElem hx]
    simp only
    by_cases hc : lines[set + x].state ≠ LineState.LINE_EMPTY ∧ lines[set + x].tag = tag
    · exact ⟨_, by rw [if_pos hc]⟩
    · rw [if_neg hc]
      exact ih (fun k hk => hb k (List.mem_cons_of_mem _ hk))

/-- The scan of `FindLine(MemAddr, bool)` returns when every line it reads
exists. -/
theorem scanSet_total (lines : List Line) (tag set : Nat) (is : List Nat)
    (hb : ∀ k ∈ is, set + k < lines.length) :
    ∀ empty, ∃ sc, scanSet lines tag set is empty = some sc := by
  induction is with
  | nil => intro empty; exact ⟨_, rfl⟩
  | cons x rest ih =>
    intro empty
    unfold scanSet
    have hx : set + x < lines.length := hb x (List.mem_cons_self _ _)
    rw [List.getElem?_eq_getElem hx]
    simp only
    have ih1 := ih (fun k hk => hb k (List.mem_cons_of_mem _ hk))
    by_cases hs : lines[set + x].state = LineState.LINE_EMPTY
    · rw [if_pos hs]
      exact ih1 _
    · rw [if_neg hs]
      by_cases ht : lines[set + x].tag = tag
      · exact ⟨_, by rw [if_pos ht]⟩
      · rw [if_neg ht]
        exact ih1 _

/-- A miss of the read-only scan: no line it read is a non-empty line with
the wanted tag. -/
theorem scanSetConst_miss_none (lines : List Line) (tag set : Nat) (is : List Nat)
    (h : scanSetConst lines tag set is = some none) :
    ∀ k ∈ is, ∀ l, lines[set + k]? = some l →
      ¬ (l.state ≠ LineState.LINE_EMPTY ∧ l.tag = tag) := by
  induction is with
  | nil => intro k hk; cases hk
  | cons x rest ih =>
    intro k hk l hl
    unfold scanSetConst at h
    cases hx : lines[set + x]? with
    | none => simp [hx] at h
    | some line =>
      simp only [hx] at h
      by_cases hc : line.state ≠ LineState.LINE_EMPTY ∧ line.tag = tag
      · rw [if_pos hc] at h; cases h
      · rw [if_neg hc] at h
        rcases List.mem_cons.mp hk with hkx | hkr
        · subst hkx
          rw [hx] at hl
          cases hl
          exact hc
        · exact ih h k hkr l hl

/-- A hit of the read-only scan: the line returned is one of the lines read,
non-empty and with the wanted tag. -/
theorem scanSetConst_hit_some (lines : List Line) (tag set i : Nat) (is : List Nat)
    (h : scanSetConst lines tag set is = some (some i)) :
    ∃ k, k ∈ is ∧ i = set + k ∧
      ∃ l, lines[i]? = some l ∧ l.state ≠ LineState.LINE_EMPTY ∧ l.tag = tag := by
  induction is with
  | nil => simp [scanSetConst] at h
  | cons x rest ih =>
    unfold scanSetConst at h
    cases hx : lines[set + x]? with
    | none => simp [hx] at h
    | some line =>
      simp only [hx] at h
      by_cases hc : line.state ≠ LineState.LINE_EMPTY ∧ line.tag = tag
      · rw [if_pos hc] at h
        simp only [Option.some.injEq] at h
        exact ⟨x, List.mem_cons_self _ _, h.symm, line, h ▸ hx, hc.1, hc.2⟩
      · rw [if_neg hc] at h
        obtain ⟨k, hk, hi, hl⟩ := ih h
        exact ⟨k, List.mem_cons_of_mem _ hk, hi, hl⟩

/-- The read-only lookup on a well-formed table: a line of the set that is
non-empty with the tag of the address, when there is one, and otherwise no
line. -/
theorem FindLineConst_wellFormed (d : RootDirectory) (address : Nat) (hwf : wellFormed d) :
    (∃ k, k < d.m_assoc ∧ FindLineConst d address = some (some (setBase d address + k)) ∧
      matchesAt d address k) ∨
    (FindLineConst d address = some none ∧ ∀ k, k < d.m_assoc → ¬ matchesAt d address k) := by
  have hz : ¬ (d.m_lineSize = 0 ∨ d.m_sets = 0) := by
    obtain ⟨h1, h2, _⟩ := hwf
    omega
  have hb : ∀ k ∈ List.range d.m_assoc, setBase d address + k < d.m_lines.length :=
    fun k hk => setBase_bound d address k hwf (List.mem_range.mp hk)
  obtain ⟨r, hr⟩ := scanSetConst_total d.m_lines (tagOf d address) (setBase d address) _ hb
  have hfc : FindLineConst d address = some r := by
    unfold FindLineConst
    simp only [hz, if_false]
    exact hr
  cases r with
  | none =>
    right
    refine ⟨hfc, ?_⟩
    intro k hk hm
    obtain ⟨l, hl, hs, ht⟩ := hm
    exact scanSetConst_miss_none _ _ _ _ hr k (List.mem_range.mpr hk) l hl ⟨hs, ht⟩
  | some i =>
    left
    obtain ⟨k, hk, hi, l, hl, hs, ht⟩ := scanSetConst_hit_some _ _ _ _ _ hr
    subst hi
    exact ⟨k, List.mem_range.mp hk, hfc, l, hl, hs, ht⟩

/-- A miss of the read-only lookup is a miss of `FindLine(address, true)`,
which returns `NULL` and writes nothing. -/
theorem FindLine_of_const_miss (d : RootDirectory) (address : Nat)
    (h : FindLineConst d address = some none) :
    FindLine d address true = some (none, d) := by
  unfold FindLineConst at h
  unfold FindLine
  by_cases hz : d.m_lineSize = 0 ∨ d.m_sets = 0
  · simp [hz] at h
  · simp only [hz, if_false] at h ⊢
    obtain ⟨em1, hscan⟩ := scanSet_of_const_miss _ _ _ _ none h
    rw [hscan]
    cases em1 <;> rfl

/-- C12: on a well-formed table, if the set selected by the address holds a
non-empty line with the tag of the address, `FindLine(address, check_only)`
returns such a line of the set for both values of `check_only`, writes
nothing, and the read-only `FindLine(address)` returns the same line; it is
that line when the set holds no other such line. If the set holds no such
line, `FindLine(address, true)` and the read-only `FindLine(address)` return
no line and write nothing. -/
theorem FindLine_finds_resident (d : RootDirectory) (address : Nat) (hwf : wellFormed d) :
    ((∃ k, k < d.m_assoc ∧ matchesAt d address k) →
      ∃ k, k < d.m_assoc ∧ matchesAt d address k ∧
        FindLine d address true = some (some (setBase d address + k), d) ∧
        FindLine d address false = some (some (setBase d address + k), d) ∧
        FindLineConst d address = some (some (setBase d address + k))) ∧
    (∀ k, k < d.m_assoc → matchesAt d address k →
      (∀ k1, k1 < d.m_assoc → matchesAt d address k1 → k1 = k) →
      FindLine d address true = some (some (setBase d address + k), d) ∧
      FindLine d address false = some (some (setBase d address + k), d) ∧
      FindLineConst d address = some (some (setBase d address + k))) ∧
    ((∀ k, k < d.m_assoc → ¬ matchesAt d address k) →
      FindLine d address true = some (none, d) ∧ FindLineConst d address = some none) := by
  have hhit : (∃ k, k < d.m_assoc ∧ matchesAt d address k) →
      ∃ k, k < d.m_assoc ∧ matchesAt d address k ∧
        FindLine d address true = some (some (setBase d address + k), d) ∧
        FindLine d address false = some (some (setBase d address + k), d) ∧
        FindLineConst d address = some (some (setBase d address + k)) := by
    intro hex
    rcases FindLineConst_wellFormed d address hwf with ⟨k, hk, hf, hm⟩ | ⟨_, hno⟩
    · exact ⟨k, hk, hm, FindLine_of_const_hit d address _ true hf,
        FindLine_of_const_hit d address _ false hf, hf⟩
    · obtain ⟨k, hk, hm⟩ := hex
      exact absurd hm (hno k hk)
  refine ⟨hhit, ?_, ?_⟩
  · intro k hk hm huniq
    obtain ⟨k1, hk1, hm1, h1, h2, h3⟩ := hhit ⟨k, hk, hm⟩
    have := huniq k1 hk1 hm1
    subst this
    exact ⟨h1, h2, h3⟩
  · intro hno
    rcases FindLineConst_wellFormed d address hwf with ⟨k, hk, _, hm⟩ | ⟨hf, _⟩
    · exact absurd hm (hno k hk)
    · exact ⟨FindLine_of_const_miss d address hf, hf⟩

/-- Witness of C12: the Full line of `0x1000`, the last line of set 0, is
what all three lookups return. -/
theorem FindLine_finds_resident_witness :
    ∃ k, k < 4 ∧ matchesAt (dirWith LineState.LINE_FULL 1) 0x1000 k ∧
      FindLine (dirWith LineState.LINE_FULL 1) 0x1000 true
        = some (some (setBase (dirWith LineState.LINE_FULL 1) 0x1000 + k),
          dirWith LineState.LINE_FULL 1) ∧
      FindLine (dirWith LineState.LINE_FULL 1) 0x1000 false
        = some (some (setBase (dirWith LineState.LINE_FULL 1) 0x1000 + k),
          dirWith LineState.LINE_FULL 1) ∧
      FindLineConst (dirWith LineState.LINE_FULL 1) 0x1000
        = some (some (setBase (dirWith LineState.LINE_FULL 1) 0x1000 + k)) :=
  (FindLine_finds_resident (dirWith LineState.LINE_FULL 1) 0x1000
    ⟨by decide, by decide, by decide⟩).1
    ⟨3, by decide, ⟨LineState.LINE_FULL, 32, 1, 7⟩, by decide, by decide, by decide⟩

/-- A lookup that misses in a set with an Empty line returns an Empty line of
that set, re-initialised. -/
theorem FindLine_alloc_in_set (d : RootDirectory) (address : Nat)
    (hmiss : FindLineConst d address = some none) (hslot : hasEmptySlot d address) :
    ∃ k l, k < d.m_assoc ∧ d.m_lines[setBase d address + k]? = some l ∧
      l.state = LineState.LINE_EMPTY ∧
      FindLine d address false = some (some (setBase d address + k),
        setLine d (setBase d address + k)
          { l with tag := tagOf d address, state := LineState.LINE_EMPTY, tokens := 0 }) := by
  unfold FindLineConst at hmiss
  by_cases hz : d.m_lineSize = 0 ∨ d.m_sets = 0
  · simp [hz] at hmiss
  · simp only [hz, if_false] at hmiss
    obtain ⟨k, hk, l0, hl0, hle0⟩ := hslot
    obtain ⟨em1, hscan⟩ := scanSet_of_const_miss _ _ _ _ none hmiss
    have hne := scanSet_missed_some _ _ _ _ none em1 hscan
      (Or.inr ⟨k, List.mem_range.mpr hk, l0, hl0, hle0⟩)
    cases em1 with
    | none => exact absurd rfl hne
    | some j =>
      rcases scanSet_missed_empty _ _ _ _ _ _ hscan with h | ⟨k1, hk1, hj, l, hl, hle⟩
      · cases h
      · subst hj
        refine ⟨k1, l, List.mem_range.mp hk1, hl, hle, ?_⟩
        unfold FindLine
        simp only [hz, if_false, hscan]
        simp [hl, tagOf, setBase]

/-- C13: on a well-formed table, when the set selected by the address holds
no non-empty line with the tag of the address but holds an Empty line,
`FindLine(address, false)` returns a line of that set that was Empty; on
return that line has the tag of the address, state Empty and 0 tokens, and
every other line, and everything else in the directory, is unchanged. -/
theorem FindLine_allocates (d : RootDirectory) (address : Nat) (hwf : wellFormed d)
    (hno : ∀ k, k < d.m_assoc → ¬ matchesAt d address k)
    (hslot : hasEmptySlot d address) :
    ∃ k l d1, k < d.m_assoc ∧ d.m_lines[setBase d address + k]? = some l ∧
      l.state = LineState.LINE_EMPTY ∧
      FindLine d address false = some (some (setBase d address + k), d1) ∧
      d1.m_lines[setBase d address + k]?
        = some ⟨LineState.LINE_EMPTY, tagOf d address, 0, l.sender⟩ ∧
      (∀ i, i ≠ setBase d address + k → d1.m_lines[i]? = d.m_lines[i]?) ∧
      d1 = { d with m_lines := d1.m_lines } := by
  have hmiss : FindLineConst d address = some none := by
    rcases FindLineConst_wellFormed d address hwf with ⟨k, hk, _, hm⟩ | ⟨hf, _⟩
    · exact absurd hm (hno k hk)
    · exact hf
  obtain ⟨k, l, hk, hl, hle, hf⟩ := FindLine_alloc_in_set d address hmiss hslot
  have hlt := setBase_bound d address k hwf hk
  refine ⟨k, l, _, hk, hl, hle, hf, ?_, ?_, rfl⟩
  · simp [setLine, hlt]
  · intro i hi
    simp [setLine, List.getElem?_set, Ne.symm hi]

/-- Witness of C13: a Request of `0x1080` (tag 33) in the set whose last line
is Empty with the stale tag 32 and 1 token: that line is returned with tag
33 and 0 tokens. -/
theorem FindLine_allocates_witness :
    ∃ k l d1, k < 4 ∧ dirStale.m_lines[setBase dirStale 0x1080 + k]? = some l ∧
      l.state = LineState.LINE_EMPTY ∧
      FindLine dirStale 0x1080 false = some (some (setBase dirStale 0x1080 + k), d1) ∧
      d1.m_lines[setBase dirStale 0x1080 + k]?
        = some ⟨LineState.LINE_EMPTY, 33, 0, l.sender⟩ := by
  obtain ⟨k, l, d1, h1, h2, h3, h4, h5, _⟩ :=
    FindLine_allocates dirStale 0x1080 ⟨by decide, by decide, by decide⟩
      (by
        intro k hk hm
        obtain ⟨l, hl, hs, ht⟩ := hm
        have hk4 : k < 4 := hk
        interval_cases k <;> simp [dirStale, dirWith, smallDir, setBase, emptyLine] at hl <;>
          subst hl <;> simp [tagOf, dirStale, dirWith, smallDir] at hs ht)
      ⟨0, by decide, emptyLine, by decide, by decide⟩
  exact ⟨k, l, d1, h1, h2, h3, h4, h5⟩

/-! ## Addresses -/

/-- C14: with a line size and a number of sets that are not zero, the set
index of an address is below `m_sets`; the address rebuilt from tag and set
index by the formula of the line dump is the address rounded down to a
multiple of `m_lineSize`, less than a line below the address; and two addresses have the same tag and set index
exactly when they lie in the same line. The first line of the set the lookup
scans is `setIndexOf * m_assoc`. -/
theorem address_decomposition (d : RootDirectory) (a b : Nat)
    (hL : 0 < d.m_lineSize) (hS : 0 < d.m_sets) :
    setIndexOf d a < d.m_sets ∧
    lineAddress d (tagOf d a) (setIndexOf d a) = a - a % d.m_lineSize ∧
    lineAddress d (tagOf d a) (setIndexOf d a) % d.m_lineSize = 0 ∧
    a - lineAddress d (tagOf d a) (setIndexOf d a) < d.m_lineSize ∧
    ((tagOf d a = tagOf d b ∧ setIndexOf d a = setIndexOf d b) ↔
      a / d.m_lineSize = b / d.m_lineSize) ∧
    setBase d a = setIndexOf d a * d.m_assoc := by
  have hrec : ∀ x : Nat, tagOf d x * d.m_sets + setIndexOf d x = x / d.m_lineSize := by
    intro x
    unfold tagOf setIndexOf
    rw [Nat.mul_comm]
    exact Nat.div_add_mod _ _
  have hline : lineAddress d (tagOf d a) (setIndexOf d a) = a / d.m_lineSize * d.m_lineSize := by
    unfold lineAddress
    rw [hrec]
  refine ⟨Nat.mod_lt _ hS, ?_, ?_, ?_, ?_, rfl⟩
  · rw [hline]
    have h := Nat.div_add_mod a d.m_lineSize
    rw [Nat.mul_comm] at h
    omega
  · rw [hline]
    exact Nat.mul_mod_left _ _
  · rw [hline]
    have h := Nat.div_add_mod a d.m_lineSize
    rw [Nat.mul_comm] at h
    have h2 := Nat.mod_lt a hL
    omega
  · constructor
    · intro ⟨h1, h2⟩
      rw [← hrec a, ← hrec b, h1, h2]
    · intro h
      unfold tagOf setIndexOf
      rw [h]
      exact ⟨rfl, rfl⟩

/-- Witness of C14: 64-byte lines and two sets; `0x1005` and `0x103f` lie in
the line of `0x1000`, with tag 32 in set 0. -/
theorem address_decomposition_witness :
    setIndexOf emptyDir 0x1005 < 2 ∧
    lineAddress emptyDir (tagOf emptyDir 0x1005) (setIndexOf emptyDir 0x1005)
      = 0x1005 - 0x1005 % 64 ∧
    lineAddress emptyDir (tagOf emptyDir 0x1005) (setIndexOf emptyDir 0x1005) % 64 = 0 ∧
    0x1005 - lineAddress emptyDir (tagOf emptyDir 0x1005) (setIndexOf emptyDir 0x1005) < 64 ∧
    ((tagOf emptyDir 0x1005 = tagOf emptyDir 0x103f ∧
        setIndexOf emptyDir 0x1005 = setIndexOf emptyDir 0x103f) ↔
      0x1005 / 64 = 0x103f / 64) ∧
    setBase emptyDir 0x1005 = setIndexOf emptyDir 0x1005 * 4 :=
  address_decomposition emptyDir 0x1005 0x103f (by decide) (by decide)

/-! ## When the lookup returns no line -/

/-- The Request case always returns. -/
theorem caseRequest_total (d1 : RootDirectory) (e : Env) (msg : Message) (i : Nat)
    (line : Line) : ∃ r, caseRequest d1 e msg i line = some r := by
  unfold caseRequest
  by_cases hs : line.state = LineState.LINE_EMPTY
  · rw [if_pos hs]
    unfold bufferPush
    cases e.requestsRoom <;> simp
  · rw [if_neg hs]
    obtain ⟨ok, msg1, d2, h⟩ := forwardRequest_total d1 e msg
    exact ⟨_, h⟩

/-- A lookup with allocation that misses in a set without an Empty line
returns `NULL` and writes nothing. -/
theorem FindLine_full_set (d : RootDirectory) (address : Nat)
    (hmiss : FindLineConst d address = some none) (hslot : ¬ hasEmptySlot d address) :
    FindLine d address false = some (none, d) := by
  unfold FindLineConst at hmiss
  unfold FindLine
  by_cases hz : d.m_lineSize = 0 ∨ d.m_sets = 0
  · simp [hz] at hmiss
  · simp only [hz, if_false] at hmiss ⊢
    obtain ⟨em1, hscan⟩ := scanSet_of_const_miss _ _ _ _ none hmiss
    rw [hscan]
    cases em1 with
    | none => rfl
    | some j =>
      exfalso
      rcases scanSet_missed_empty _ _ _ _ _ _ hscan with h | ⟨k, hk, hj, l, hl, hle⟩
      · cases h
      · subst hj
        exact hslot ⟨k, List.mem_range.mp hk, l, hl, hle⟩

/-- C18: on a well-formed table `FindLine(address, false)` returns no line
exactly when the set selected by the address holds neither a non-empty line
with the tag of the address nor an Empty line. When the set holds one or the
other, the lookup returns a line that exists, so that the Request case reads
its state: `OnMessageReceived` on a Request of that address (grant held,
payload of `m_lineSize`) is the Request case on that line, and returns. -/
theorem FindLine_null_iff_set_full (d : RootDirectory) (address : Nat) (hwf : wellFormed d) :
    ((∃ d1, FindLine d address false = some (none, d1)) ↔
      ((∀ k, k < d.m_assoc → ¬ matchesAt d address k) ∧ ¬ hasEmptySlot d address)) ∧
    (((∃ k, k < d.m_assoc ∧ matchesAt d address k) ∨ hasEmptySlot d address) →
      ∃ i line d1, deref (FindLine d address false) = some (i, line, d1) ∧
        d1.m_lines[i]? = some line ∧
        ∀ (e : Env) (msg : Message), e.grant = true → msg.type = MessageType.REQUEST →
          msg.address = address → msg.data.size = d.m_lineSize →
          OnMessageReceived d e msg = caseRequest d1 e msg i line ∧
          ∃ r, OnMessageReceived d e msg = some r) := by
  constructor
  · constructor
    · intro ⟨d1, h⟩
      rcases FindLineConst_wellFormed d address hwf with ⟨k, _, hf, _⟩ | ⟨hf, hno⟩
      · rw [FindLine_of_const_hit d address _ false hf] at h
        simp at h
      · refine ⟨hno, ?_⟩
        intro hslot
        obtain ⟨k, l, _, _, _, hfl⟩ := FindLine_alloc_in_set d address hf hslot
        rw [hfl] at h
        simp at h
    · intro ⟨hno, hslot⟩
      rcases FindLineConst_wellFormed d address hwf with ⟨k, hk, _, hm⟩ | ⟨hf, _⟩
      · exact absurd hm (hno k hk)
      · exact ⟨d, FindLine_full_set d address hf hslot⟩
  · intro hor
    have hderef : ∃ i line d1, deref (FindLine d address false) = some (i, line, d1) ∧
        d1.m_lines[i]? = some line := by
      rcases FindLineConst_wellFormed d address hwf with ⟨k, hk, hf, l, hl, _, _⟩ | ⟨hf, hno⟩
      · refine ⟨setBase d address + k, l, d, ?_, hl⟩
        rw [FindLine_of_const_hit d address _ false hf]
        simp [deref, hl]
      · have hslot : hasEmptySlot d address := by
          rcases hor with ⟨k, hk, hm⟩ | hs
          · exact absurd hm (hno k hk)
          · exact hs
        obtain ⟨k, l, hk, hl, _, hfl⟩ := FindLine_alloc_in_set d address hf hslot
        have hlt := setBase_bound d address k hwf hk
        refine ⟨setBase d address + k,
          { l with tag := tagOf d address, state := LineState.LINE_EMPTY, tokens := 0 },
          setLine d (setBase d address + k)
            { l with tag := tagOf d address, state := LineState.LINE_EMPTY, tokens := 0 },
          ?_, ?_⟩
        · rw [hfl]
          simp [deref, setLine, hlt]
        · simp [setLine, hlt]
    obtain ⟨i, line, d1, hdr, hl⟩ := hderef
    refine ⟨i, line, d1, hdr, hl, ?_⟩
    intro e msg hg ht ha hsz
    have hstep : OnMessageReceived d e msg = caseRequest d1 e msg i line := by
      unfold OnMessageReceived
      simp [hg, ht, hsz, ha, hdr]
    refine ⟨hstep, ?_⟩
    rw [hstep]
    exact caseRequest_total d1 e msg i line

/-- Witness of C18: in the all-Empty directory the lookup of `0x1000` returns
a line. -/
theorem FindLine_null_iff_set_full_witness :
    ∃ i line d1, deref (FindLine emptyDir 0x1000 false) = some (i, line, d1) ∧
      d1.m_lines[i]? = some line := by
  obtain ⟨i, line, d1, h1, h2, _⟩ :=
    (FindLine_null_iff_set_full emptyDir 0x1000 ⟨by decide, by decide, by decide⟩).2
      (Or.inr ⟨0, by decide, emptyLine, by decide, by decide⟩)
  exact ⟨i, line, d1, h1, h2⟩

/-! ## The writes of a step -/

/-- A lookup that returns an Empty line returns a line of the selected
set. -/
theorem deref_alloc_in_set (d d0 : RootDirectory) (address i : Nat) (line : Line)
    (check_only : Bool)
    (h : deref (FindLine d address check_only) = some (i, line, d0))
    (hs : line.state = LineState.LINE_EMPTY) :
    ∃ k, k < d.m_assoc ∧ i = setBase d address + k := by
  unfold deref FindLine at h
  by_cases hz : d.m_lineSize = 0 ∨ d.m_sets = 0
  · simp [hz] at h
  · simp only [hz, if_false] at h
    cases hscan : scanSet d.m_lines (address / d.m_lineSize / d.m_sets)
        (address / d.m_lineSize % d.m_sets * d.m_assoc) (List.range d.m_assoc) none with
    | none => simp [hscan] at h
    | some sc =>
      cases sc with
      | found i0 =>
        obtain ⟨l0, hl0, hs0, _⟩ := scanSet_found _ _ _ _ _ _ hscan
        simp only [hscan, hl0, Option.some.injEq, Prod.mk.injEq] at h
        rw [← h.2.1] at hs
        exact absurd hs hs0
      | missed em =>
        cases em with
        | none => simp [hscan] at h
        | some j =>
          rcases scanSet_missed_empty _ _ _ _ _ _ hscan with h1 | ⟨k, hk, hj, l, hl, _⟩
          · cases h1
          · cases check_only
            · simp only [hscan, hl, Bool.false_eq_true, if_false] at h
              have hjl : j < d.m_lines.length := by
                rcases Nat.lt_or_ge j d.m_lines.length with h2 | h2
                · exact h2
                · rw [List.getElem?_eq_none h2] at hl; cases hl
              simp only [setLine, List.getElem?_set, hjl, if_true, Option.some.injEq,
                Prod.mk.injEq] at h
              exact ⟨k, List.mem_range.mp hk, by rw [← h.1, hj]; rfl⟩
            · simp [hscan] at h

/-- What `OnMessageReceived` writes to the table: nothing, or one line, by
one of the writes of `ingressWrite`. -/
theorem OnMessageReceived_write (d d1 : RootDirectory) (e : Env) (msg msg1 : Message)
    (ok : Bool) (h : OnMessageReceived d e msg = some (ok, msg1, d1)) :
    d1.m_lines = d.m_lines ∨ ∃ i l l1, d.m_lines[i]? = some l ∧
      d1.m_lines = d.m_lines.set i l1 ∧ ingressWrite d msg i l l1 := by
  rcases OnMessageReceived_cases d d1 e msg msg1 ok h with
    ⟨_, _, _, hd⟩ | ⟨_, ⟨_, hf⟩ | ⟨ht, _, i, line, d0, hdr, hc⟩ | ⟨ht, i, line, _, hl, hc⟩ |
      ⟨ht, i, line, _, hl, hc⟩⟩
  · exact Or.inl (by rw [hd])
  · exact Or.inl (forwardRequest_lines _ _ _ _ _ _ hf)
  · have hcl := caseRequest_lines _ _ _ _ _ _ _ _ hc
    rcases deref_FindLine _ _ _ _ _ _ hdr with ⟨hd0, _, hs, _⟩ | ⟨_, l, hl, hle, hline, hd0⟩
    · rcases hcl with hcl | ⟨hcl, _⟩
      · exact Or.inl (by rw [hcl, hd0])
      · exact absurd hcl hs
    · have hs : line.state = LineState.LINE_EMPTY := by rw [hline]
      have hmiss := FindLineConst_of_alloc _ _ _ _ _ _ hdr hs
      have hk := deref_alloc_in_set _ _ _ _ _ _ hdr hs
      right
      rcases hcl with hcl | ⟨_, hcl⟩
      · refine ⟨i, l, line, hl, by rw [hcl, hd0]; rfl, Or.inl ⟨ht, hle, hmiss, hk, Or.inl ?_⟩⟩
        rw [hline]
      · refine ⟨i, l, { line with state := LineState.LINE_LOADING, sender := msg.sender }, hl,
          ?_, Or.inl ⟨ht, hle, hmiss, hk, Or.inr ?_⟩⟩
        · rw [hcl, hd0]
          simp [setLine]
        · rw [hline]
  · obtain ⟨hfull, hcl⟩ := caseRequestData_lines _ _ _ _ _ _ _ _ hc
    obtain ⟨_, ⟨hpos, _, _⟩ | ⟨hneg, hf⟩⟩ := caseRequestData_cases _ _ _ _ _ _ _ _ hc
    · rcases hcl with hcl | hcl
      · exact Or.inl hcl
      · exact Or.inr ⟨i, line, _, hl, hcl, Or.inr (Or.inl ⟨ht, hfull, hpos, rfl⟩)⟩
    · exact Or.inl (forwardRequest_lines _ _ _ _ _ _ hf)
  · obtain ⟨hfull, _, hr | hr | hr | hr⟩ := caseEviction_cases _ _ _ _ _ _ _ _ hc
    · obtain ⟨hlt, _, hd⟩ := hr
      cases hcm : e.committing
      · rw [hcm] at hd
        exact Or.inl (by rw [hd]; rfl)
      · rw [hcm] at hd
        exact Or.inr ⟨i, line, _, hl, by rw [hd]; rfl,
          Or.inr (Or.inr ⟨ht, hfull, Or.inl ⟨hlt, rfl⟩⟩)⟩
    · exact Or.inl (by rw [hr.2.2.2.2])
    · obtain ⟨_, _, _, _, hd⟩ := hr
      cases hcm : e.committing
      · rw [hcm] at hd
        exact Or.inl (by rw [hd]; rfl)
      · rw [hcm] at hd
        exact Or.inr ⟨i, line, _, hl, by rw [hd]; rfl, Or.inr (Or.inr ⟨ht, hfull, Or.inr rfl⟩)⟩
    · obtain ⟨_, _, _, hd⟩ := hr
      cases hcm : e.committing
      · rw [hcm] at hd
        exact Or.inl (by rw [hd]; rfl)
      · rw [hcm] at hd
        exact Or.inr ⟨i, line, _, hl, by rw [hd]; rfl, Or.inr (Or.inr ⟨ht, hfull, Or.inr rfl⟩)⟩

/-- What `DoResponses` writes to the table: nothing, or one Loading line,
made Full. -/
theorem DoResponses_write (d d1 : RootDirectory) (e : Env) (r : Result)
    (h : DoResponses d e = some (r, d1)) :
    d1.m_lines = d.m_lines ∨ ∃ i l, d.m_lines[i]? = some l ∧
      l.state = LineState.LINE_LOADING ∧
      d1.m_lines = d.m_lines.set i { l with state := LineState.LINE_FULL } := by
  obtain ⟨msg, rest, _, hc⟩ := DoResponses_cases d d1 e r h
  rcases hc with ⟨_, _, hd⟩ | ⟨_, msg1, d0, msg2, hst, _, hc⟩
  · exact Or.inl (by rw [hd])
  · have hd : d1.m_lines = d0.m_lines := by
      rcases hc with ⟨_, _, hd⟩ | ⟨_, _, hd⟩ <;> rw [hd]
    rw [hd]
    rcases stampResponse_cases d d0 e msg msg1 hst with
      ⟨_, _, h0⟩ | ⟨_, i, line, hl, hs, _, ⟨_, _, h0⟩ | ⟨_, _, h0⟩⟩
    · exact Or.inl (by rw [h0])
    · exact Or.inl (by rw [h0])
    · exact Or.inr ⟨i, line, hl, hs, by rw [h0]; rfl⟩

/-! ## Tokens -/

/-- A line read after one line of the table was overwritten is the new line,
or the line that was there. -/
theorem getElem?_set_cases (ls : List Line) (i j : Nat) (l1 a b : Line)
    (ha : ls[j]? = some a) (hb : (ls.set i l1)[j]? = some b) :
    (j = i ∧ b = l1) ∨ b = a := by
  by_cases hij : i = j
  · subst hij
    have hi : i < ls.length := by
      rcases Nat.lt_or_ge i ls.length with h | h
      · exact h
      · rw [List.getElem?_eq_none h] at ha; cases ha
    simp only [List.getElem?_set, hi, if_true, Option.some.injEq] at hb
    exact Or.inl ⟨rfl, hb.symm⟩
  · rw [List.getElem?_set_ne hij, ha] at hb
    cases hb
    exact Or.inr rfl

/-- A table that is not written keeps the tokens of its lines. -/
theorem tokensGrow_of_eq (ls ls1 : List Line) (h : ls1 = ls) : tokensGrow ls ls1 := by
  subst h
  intro j l l1 h1 h2 _ _
  rw [h1] at h2
  cases h2
  exact Nat.le_refl _

/-- The forward path changes nothing of the message but its `ignore` flag. -/
theorem forwardRequest_msg (d d1 : RootDirectory) (e : Env) (msg msg1 : Message) (ok : Bool)
    (h : forwardRequest d e msg = some (ok, msg1, d1)) :
    msg1 = msg ∨ msg1 = { msg with ignore := true } := by
  rcases forwardRequest_cases d d1 e msg msg1 ok h with ⟨_, _, hm, _⟩ | ⟨_, hm, _⟩
  · exact Or.inl hm
  · cases hc : e.committing
    · rw [hc] at hm; exact Or.inl hm
    · rw [hc] at hm; exact Or.inr hm

/-- Only the RequestWithData case changes the token count of the message. -/
theorem OnMessageReceived_msg_tokens (d d1 : RootDirectory) (e : Env) (msg msg1 : Message)
    (ok : Bool) (h : OnMessageReceived d e msg = some (ok, msg1, d1))
    (ht : msg.type ≠ MessageType.REQUEST_DATA) : msg1.tokens = msg.tokens := by
  have hfw : ∀ d0 d2, forwardRequest d0 e msg = some (ok, msg1, d2) →
      msg1.tokens = msg.tokens := by
    intro d0 d2 hf
    rcases forwardRequest_msg _ _ _ _ _ _ hf with hm | hm <;> rw [hm]
  rcases OnMessageReceived_cases d d1 e msg msg1 ok h with
    ⟨_, _, hm, _⟩ | ⟨_, ⟨_, hf⟩ | ⟨_, _, i, line, d0, hdr, hc⟩ | ⟨ht2, _⟩ |
      ⟨_, i, line, _, _, hc⟩⟩
  · rw [hm]
  · exact hfw _ _ hf
  · by_cases hs : line.state = LineState.LINE_EMPTY
    · rw [(caseRequest_empty _ _ _ _ _ _ _ _ hs hc).1]
    · rw [caseRequest_nonempty _ _ _ _ _ hs] at hc
      exact hfw _ _ hc
  · exact absurd ht2 ht
  · rw [(caseEviction_cases _ _ _ _ _ _ _ _ hc).2.1]

/-- Ingress of anything but a RequestWithData does not take tokens from a
line that is Full before and after, when the sum an Eviction computes does
not wrap. -/
theorem OnMessageReceived_tokensGrow (d d1 : RootDirectory) (e : Env) (msg msg1 : Message)
    (ok : Bool) (h : OnMessageReceived d e msg = some (ok, msg1, d1))
    (ht : msg.type ≠ MessageType.REQUEST_DATA)
    (hfit : ∀ l ∈ d.m_lines, msg.tokens + l.tokens < UINT_RANGE) :
    tokensGrow d.m_lines d1.m_lines := by
  rcases OnMessageReceived_write d d1 e msg msg1 ok h with hl | ⟨i, l, l1, hl, hset, hw⟩
  · exact tokensGrow_of_eq _ _ hl
  · intro j a b ha hb hfa hfb
    rw [hset] at hb
    rcases getElem?_set_cases _ _ _ _ _ _ ha hb with ⟨hji, hbl⟩ | hba
    · subst hji
      rw [hl] at ha
      cases ha
      subst hbl
      rcases hw with ⟨_, hle, _⟩ | ⟨ht2, _⟩ | ⟨_, _, ⟨_, hl1⟩ | hl1⟩
      · rw [hle] at hfa; cases hfa
      · exact absurd ht2 ht
      · rw [hl1]
        have hmem : l ∈ d.m_lines := List.getElem?_mem hl
        have := hfit l hmem
        simp only
        rw [Nat.mod_eq_of_lt this]
        omega
      · rw [hl1] at hfb; cases hfb
    · rw [hba]

/-- C15, counterexample: a RequestWithData on the Full line of `0x1000` with
3 tokens. The line is Full before and after the step and its token count
goes from 3 to 0; the tokens leave on the message, which is no response to a
load. -/
theorem request_data_drains_line :
    OnMessageReceived (dirWith LineState.LINE_FULL 3) envOk
        (mkMsg MessageType.REQUEST_DATA 0 false)
      = some (true, mkMsg MessageType.REQUEST_DATA_TOKEN 3 false,
        { dirWith LineState.LINE_FULL 0 with
          sent := [mkMsg MessageType.REQUEST_DATA_TOKEN 3 false] }) ∧
    (dirWith LineState.LINE_FULL 3).m_lines[3]? = some ⟨LineState.LINE_FULL, 32, 3, 7⟩ ∧
    (dirWith LineState.LINE_FULL 0).m_lines[3]? = some ⟨LineState.LINE_FULL, 32, 0, 7⟩ ∧
    ¬ tokensGrow (dirWith LineState.LINE_FULL 3).m_lines (dirWith LineState.LINE_FULL 0).m_lines := by
  refine ⟨by decide, by decide, by decide, ?_⟩
  intro h
  have := h 3 ⟨LineState.LINE_FULL, 32, 3, 7⟩ ⟨LineState.LINE_FULL, 32, 0, 7⟩
    (by decide) (by decide) rfl rfl
  exact absurd this (by decide)

/-- C15, amended: the directory accumulates tokens except when a
RequestWithData passes. For ingress of a message that is no RequestWithData
(the sum an Eviction computes not wrapping), for `DoRequests`,
`OnReadCompleted` and `DoResponses`, every line that is Full before and
after the step has at least as many tokens after as before, and ingress
leaves the token count of the message as it was. Ingress of a
RequestWithData writes no line, or takes all the tokens of one Full line: the
line keeps 0 and the message, now a `REQUEST_DATA_TOKEN`, carries them. The
response of a load that `DoResponses` sends carries `m_numCaches` tokens. -/
theorem tokens_accumulate_or_leave_with_data (d : RootDirectory) (e : Env) (msg : Message)
    (address : Nat) (data : MemData) :
    (∀ ok msg1 d1, msg.type ≠ MessageType.REQUEST_DATA →
      (∀ l ∈ d.m_lines, msg.tokens + l.tokens < UINT_RANGE) →
      OnMessageReceived d e msg = some (ok, msg1, d1) →
      tokensGrow d.m_lines d1.m_lines ∧ msg1.tokens = msg.tokens) ∧
    (∀ r d1, DoRequests d e = some (r, d1) → tokensGrow d.m_lines d1.m_lines) ∧
    (∀ ok d1, OnReadCompleted d e address data = some (ok, d1) →
      tokensGrow d.m_lines d1.m_lines) ∧
    (∀ r d1, DoResponses d e = some (r, d1) → tokensGrow d.m_lines d1.m_lines) ∧
    (∀ ok msg1 d1, msg.type = MessageType.REQUEST_DATA →
      OnMessageReceived d e msg = some (ok, msg1, d1) →
      (d1.m_lines = d.m_lines ∧ msg1.tokens = msg.tokens) ∨
      ∃ i l, d.m_lines[i]? = some l ∧ l.state = LineState.LINE_FULL ∧ 0 < l.tokens ∧
        d1.m_lines = d.m_lines.set i { l with tokens := 0 } ∧
        msg1.tokens = l.tokens ∧ msg1.type = MessageType.REQUEST_DATA_TOKEN) ∧
    (∀ d1 m rest, d.m_responses = m :: rest → m.ignore = false → e.committing = true →
      DoResponses d e = some (Result.SUCCESS, d1) →
      ∃ m1, d1.sent = d.sent ++ [m1] ∧ m1.tokens = d.m_numCaches % UINT_RANGE) := by
  refine ⟨?_, ?_, ?_, ?_, ?_, ?_⟩
  · intro ok msg1 d1 ht hfit h
    exact ⟨OnMessageReceived_tokensGrow d d1 e msg msg1 ok h ht hfit,
      OnMessageReceived_msg_tokens d d1 e msg msg1 ok h ht⟩
  · intro r d1 h
    exact tokensGrow_of_eq _ _ (DoRequests_lines d d1 e r h)
  · intro ok d1 h
    exact tokensGrow_of_eq _ _ (OnReadCompleted_lines d d1 e address data ok h)
  · intro r d1 h
    rcases DoResponses_write d d1 e r h with hl | ⟨i, l, hl, hs, hset⟩
    · exact tokensGrow_of_eq _ _ hl
    · intro j a b ha hb hfa _
      rw [hset] at hb
      rcases getElem?_set_cases _ _ _ _ _ _ ha hb with ⟨hji, _⟩ | hba
      · subst hji
        rw [hl] at ha
        cases ha
        rw [hs] at hfa
        cases hfa
      · rw [hba]
  · intro ok msg1 d1 ht h
    rcases OnMessageReceived_cases d d1 e msg msg1 ok h with
      ⟨_, _, hm, hd⟩ | ⟨_, ⟨ht2, _⟩ | ⟨ht2, _⟩ | ⟨_, i, line, _, hl, hc⟩ | ⟨ht2, _⟩⟩
    · exact Or.inl ⟨by rw [hd], by rw [hm]⟩
    · rcases ht2 with ht2 | ht2 <;> rw [ht] at ht2 <;> cases ht2
    · rw [ht] at ht2; cases ht2
    · obtain ⟨hfull, ⟨hpos, _, hf⟩ | ⟨_, hf⟩⟩ := caseRequestData_cases _ _ _ _ _ _ _ _ hc
      · right
        refine ⟨i, line, hl, hfull, hpos, forwardRequest_lines _ _ _ _ _ _ hf, ?_⟩
        rcases forwardRequest_msg _ _ _ _ _ _ hf with hm | hm <;> rw [hm] <;> exact ⟨rfl, rfl⟩
      · left
        refine ⟨forwardRequest_lines _ _ _ _ _ _ hf, ?_⟩
        rcases forwardRequest_msg _ _ _ _ _ _ hf with hm | hm <;> rw [hm]
    · rw [ht] at ht2; cases ht2
  · intro d1 m rest hq hign hcm h
    obtain ⟨m0, rest0, hq0, hc⟩ := DoResponses_cases d d1 e Result.SUCCESS h
    rw [hq] at hq0
    cases hq0
    rcases hc with ⟨_, hr, _⟩ | ⟨_, msg1, d0, msg2, hst, hm2, hc⟩
    · cases hr
    · rcases hc with ⟨_, hr, _⟩ | ⟨_, _, hd⟩
      · cases hr
      · rw [hcm] at hd hm2
        refine ⟨msg2, ?_, ?_⟩
        · rw [hd]
          simp [stampResponse_sent d d0 e m msg1 hst]
        · rcases stampResponse_cases d d0 e m msg1 hst with
            ⟨hi, _⟩ | ⟨_, i, line, _, _, _, ⟨hcm2, _⟩ | ⟨_, hm1, _⟩⟩
          · rw [hign] at hi; cases hi
          · rw [hcm] at hcm2; cases hcm2
          · rw [hm2, hm1]
            rfl

/-- Witness of C15 (amended): an Eviction with 2 tokens on a Full line with 1
token leaves the table with no Full line poorer. -/
theorem tokens_accumulate_or_leave_with_data_witness :
    tokensGrow (dirWith LineState.LINE_FULL 1).m_lines
        (deleteMsg (dirWith LineState.LINE_FULL 3) (mkMsg MessageType.EVICTION 2 false)).m_lines ∧
      (mkMsg MessageType.EVICTION 2 false).tokens = 2 :=
  (tokens_accumulate_or_leave_with_data (dirWith LineState.LINE_FULL 1) envOk
    (mkMsg MessageType.EVICTION 2 false) 0 ⟨[], 0⟩).1 true
    (mkMsg MessageType.EVICTION 2 false) _ (by decide) (by decide) (by decide)

/-! ## Reachable states -/

/-- The forward path keeps the configuration. -/
theorem forwardRequest_config (d d1 : RootDirectory) (e : Env) (msg msg1 : Message) (ok : Bool)
    (h : forwardRequest d e msg = some (ok, msg1, d1)) : sameConfig d d1 := by
  rcases forwardRequest_cases d d1 e msg msg1 ok h with ⟨_, _, _, hd⟩ | ⟨_, _, hd | hd⟩
  · rw [hd]; cases e.committing <;> exact ⟨rfl, rfl, rfl, rfl⟩
  · rw [hd.2.2]; exact ⟨rfl, rfl, rfl, rfl⟩
  · rw [hd.2.2]; exact ⟨rfl, rfl, rfl, rfl⟩

/-- The ingress handler keeps the configuration. -/
theorem OnMessageReceived_config (d d1 : RootDirectory) (e : Env) (msg msg1 : Message)
    (ok : Bool) (h : OnMessageReceived d e msg = some (ok, msg1, d1)) : sameConfig d d1 := by
  rcases OnMessageReceived_cases d d1 e msg msg1 ok h with
    ⟨_, _, _, hd⟩ | ⟨_, ⟨_, hf⟩ | ⟨_, _, i, line, d0, hdr, hc⟩ | ⟨_, i, line, _, _, hc⟩ |
      ⟨_, i, line, _, _, hc⟩⟩
  · rw [hd]; exact ⟨rfl, rfl, rfl, rfl⟩
  · exact forwardRequest_config _ _ _ _ _ _ hf
  · have h0 : sameConfig d d0 := by
      rcases deref_FindLine _ _ _ _ _ _ hdr with ⟨hd0, _⟩ | ⟨_, l, _, _, _, hd0⟩ <;> rw [hd0] <;>
        exact ⟨rfl, rfl, rfl, rfl⟩
    have h1 : sameConfig d0 d1 := by
      by_cases hs : line.state = LineState.LINE_EMPTY
      · obtain ⟨_, hr | hr⟩ := caseRequest_empty _ _ _ _ _ _ _ _ hs hc
        · rw [hr.2.2]; exact ⟨rfl, rfl, rfl, rfl⟩
        · rw [hr.2.2]; cases e.committing <;> exact ⟨rfl, rfl, rfl, rfl⟩
      · rw [caseRequest_nonempty _ _ _ _ _ hs] at hc
        exact forwardRequest_config _ _ _ _ _ _ hc
    obtain ⟨a1, a2, a3, a4⟩ := h0
    obtain ⟨b1, b2, b3, b4⟩ := h1
    exact ⟨b1.trans a1, b2.trans a2, b3.trans a3, b4.trans a4⟩
  · obtain ⟨_, ⟨_, _, hf⟩ | ⟨_, hf⟩⟩ := caseRequestData_cases _ _ _ _ _ _ _ _ hc
    · have h2 := forwardRequest_config (setLine d i { line with tokens := 0 }) d1 e _ msg1 ok hf
      exact h2
    · exact forwardRequest_config _ _ _ _ _ _ hf
  · obtain ⟨_, _, hr | hr | hr | hr⟩ := caseEviction_cases _ _ _ _ _ _ _ _ hc
    · rw [hr.2.2]; cases e.committing <;> exact ⟨rfl, rfl, rfl, rfl⟩
    · rw [hr.2.2.2.2]; exact ⟨rfl, rfl, rfl, rfl⟩
    · rw [hr.2.2.2.2]; cases e.committing <;> exact ⟨rfl, rfl, rfl, rfl⟩
    · rw [hr.2.2.2]; cases e.committing <;> exact ⟨rfl, rfl, rfl, rfl⟩

/-- `DoIncoming` is a `stepWrite`. -/
theorem DoIncoming_stepWrite (d d1 : RootDirectory) (e : Env) (r : Result)
    (h : DoIncoming d e = some (r, d1)) : stepWrite d d1 := by
  obtain ⟨msg, rest, ok, msg1, d0, _, ho, _, hd⟩ := DoIncoming_inv d d1 e r h
  have hc := OnMessageReceived_config d d0 e msg msg1 ok ho
  have hw := OnMessageReceived_write d d0 e msg msg1 ok ho
  rw [hd]
  refine ⟨hc, ?_⟩
  rcases hw with hl | ⟨i, l, l1, hl, hset, hw⟩
  · exact Or.inl hl
  · exact Or.inr ⟨msg, i, l, l1, hl, hset, Or.inl hw⟩

/-- `DoRequests` is a `stepWrite`. -/
theorem DoRequests_stepWrite (d d1 : RootDirectory) (e : Env) (r : Result)
    (h : DoRequests d e = some (r, d1)) : stepWrite d d1 := by
  refine ⟨?_, Or.inl (DoRequests_lines d d1 e r h)⟩
  obtain ⟨msg, rest, _, hc⟩ := DoRequests_cases d d1 e r h
  rcases hc with ⟨_, hd⟩ | ⟨_, _, ⟨_, _, hd⟩ | ⟨_, _, _, hd⟩ | ⟨_, _, _, hd⟩⟩
  · rw [hd]; exact ⟨rfl, rfl, rfl, rfl⟩
  · rw [hd]; exact ⟨rfl, rfl, rfl, rfl⟩
  · rw [hd]; cases e.committing <;> exact ⟨rfl, rfl, rfl, rfl⟩
  · rw [hd]; cases e.committing <;> exact ⟨rfl, rfl, rfl, rfl⟩

/-- `OnReadCompleted` is a `stepWrite`. -/
theorem OnReadCompleted_stepWrite (d d1 : RootDirectory) (e : Env) (address : Nat)
    (data : MemData) (ok : Bool) (h : OnReadCompleted d e address data = some (ok, d1)) :
    stepWrite d d1 := by
  refine ⟨?_, Or.inl (OnReadCompleted_lines d d1 e address data ok h)⟩
  obtain ⟨active, m, _, _, _, _, hc⟩ := OnReadCompleted_cases d d1 e address data ok h
  rcases hc with ⟨_, _, hd⟩ | ⟨_, _, hd⟩ <;> rw [hd] <;> exact ⟨rfl, rfl, rfl, rfl⟩

/-- `DoResponses` is a `stepWrite`. -/
theorem DoResponses_stepWrite (d d1 : RootDirectory) (e : Env) (r : Result)
    (h : DoResponses d e = some (r, d1)) : stepWrite d d1 := by
  constructor
  · obtain ⟨msg, rest, _, hc⟩ := DoResponses_cases d d1 e r h
    rcases hc with ⟨_, _, hd⟩ | ⟨_, msg1, d0, msg2, hst, _, hc⟩
    · rw [hd]; exact ⟨rfl, rfl, rfl, rfl⟩
    · have h0 : sameConfig d d0 := by
        rcases stampResponse_cases d d0 e msg msg1 hst with
          ⟨_, _, h0⟩ | ⟨_, i, line, _, _, _, ⟨_, _, h0⟩ | ⟨_, _, h0⟩⟩ <;> rw [h0] <;>
          exact ⟨rfl, rfl, rfl, rfl⟩
      rcases hc with ⟨_, _, hd⟩ | ⟨_, _, hd⟩ <;> rw [hd] <;> exact h0
  · obtain ⟨msg, _, _, _⟩ := DoResponses_cases d d1 e r h
    rcases DoResponses_write d d1 e r h with hl | ⟨i, l, hl, hs, hset⟩
    · exact Or.inl hl
    · exact Or.inr ⟨msg, i, l, _, hl, hset, Or.inr ⟨hs, rfl⟩⟩

/-- Induction over the reachable states: a property that holds after the
constructor and is kept by every `stepWrite` holds in every reachable
state. -/
theorem Reachable.invariant (P : RootDirectory → Prop)
    (hinit : ∀ d, Initial d → P d)
    (hstep : ∀ d d1, P d → stepWrite d d1 → P d1)
    (d : RootDirectory) (hr : Reachable d) : P d := by
  induction hr with
  | init d hi => exact hinit d hi
  | arrive d msg _ ih => exact hstep _ _ ih ⟨⟨rfl, rfl, rfl, rfl⟩, Or.inl rfl⟩
  | doIncoming d d1 e r _ h ih => exact hstep _ _ ih (DoIncoming_stepWrite d d1 e r h)
  | doRequests d d1 e r _ h ih => exact hstep _ _ ih (DoRequests_stepWrite d d1 e r h)
  | onReadCompleted d d1 e address data ok _ h ih =>
    exact hstep _ _ ih (OnReadCompleted_stepWrite d d1 e address data ok h)
  | doResponses d d1 e r _ h ih => exact hstep _ _ ih (DoResponses_stepWrite d d1 e r h)

/-! ## Tokens of an Empty line -/

/-- C16, counterexample: ingress of a Request of `0x1080` in a run that is
not committing, and the lookup it performs. The last line of set 0 is Empty
with 1 token (what a full eviction left); it is Empty after the step, which
returns true, and has 0 tokens. -/
theorem lookup_zeroes_empty_line :
    dirStale.m_lines[3]? = some ⟨LineState.LINE_EMPTY, 32, 1, 7⟩ ∧
    FindLine dirStale 0x1080 false = some (some 3,
      { dirStale with m_lines :=
        [emptyLine, emptyLine, emptyLine, ⟨LineState.LINE_EMPTY, 33, 0, 7⟩,
          emptyLine, emptyLine, emptyLine, emptyLine] }) ∧
    OnMessageReceived dirStale envNotCommitting
        { mkMsg MessageType.REQUEST 0 false with address := 0x1080 }
      = some (true, { mkMsg MessageType.REQUEST 0 false with address := 0x1080 },
        { dirStale with m_lines :=
          [emptyLine, emptyLine, emptyLine, ⟨LineState.LINE_EMPTY, 33, 0, 7⟩,
            emptyLine, emptyLine, emptyLine, emptyLine] }) := by
  decide

/-- C16, amended: a line that is Empty before a step has the same token
count after it, or is no longer Empty, or the step is the ingress of a
Request whose address has no line in the table and the line is the one the
lookup returned, with the tag of the address and 0 tokens. `DoRequests`,
`OnReadCompleted` and `DoResponses` leave the token count of every line that
was Empty as it was, and `FindLine(address, true)` writes nothing. -/
theorem empty_line_tokens_kept_or_reset (d : RootDirectory) (e : Env) (msg : Message)
    (address : Nat) (data : MemData) :
    (∀ ok msg1 d1, OnMessageReceived d e msg = some (ok, msg1, d1) →
      ∀ (j : Nat) (l l1 : Line), d.m_lines[j]? = some l → d1.m_lines[j]? = some l1 →
        l.state = LineState.LINE_EMPTY →
        l1.tokens = l.tokens ∨ l1.state ≠ LineState.LINE_EMPTY ∨
          (msg.type = MessageType.REQUEST ∧ FindLineConst d msg.address = some none ∧
            l1.tokens = 0 ∧ l1.tag = tagOf d msg.address)) ∧
    (∀ r d1, DoRequests d e = some (r, d1) → d1.m_lines = d.m_lines) ∧
    (∀ ok d1, OnReadCompleted d e address data = some (ok, d1) → d1.m_lines = d.m_lines) ∧
    (∀ r d1, DoResponses d e = some (r, d1) →
      ∀ (j : Nat) (l l1 : Line), d.m_lines[j]? = some l → d1.m_lines[j]? = some l1 →
        l.state = LineState.LINE_EMPTY → l1 = l) ∧
    (∀ r d1, FindLine d address true = some (r, d1) → d1 = d) := by
  refine ⟨?_, ?_, ?_, ?_, ?_⟩
  · intro ok msg1 d1 h j a b ha hb hempty
    rcases OnMessageReceived_write d d1 e msg msg1 ok h with hl | ⟨i, l, l1, hl, hset, hw⟩
    · rw [hl, ha] at hb
      cases hb
      exact Or.inl rfl
    · rw [hset] at hb
      rcases getElem?_set_cases _ _ _ _ _ _ ha hb with ⟨hji, hbl⟩ | hba
      · subst hji
        rw [hl] at ha
        cases ha
        subst hbl
        rcases hw with ⟨ht, _, hmiss, _, hl1 | hl1⟩ | ⟨_, hfull, _⟩ | ⟨_, hfull, _⟩
        · exact Or.inr (Or.inr ⟨ht, hmiss, by rw [hl1], by rw [hl1]⟩)
        · exact Or.inr (Or.inl (by rw [hl1]; simp))
        · rw [hempty] at hfull; cases hfull
        · rw [hempty] at hfull; cases hfull
      · exact Or.inl (by rw [hba])
  · intro r d1 h
    exact DoRequests_lines d d1 e r h
  · intro ok d1 h
    exact OnReadCompleted_lines d d1 e address data ok h
  · intro r d1 h j a b ha hb hempty
    rcases DoResponses_write d d1 e r h with hl | ⟨i, l, hl, hs, hset⟩
    · rw [hl, ha] at hb
      cases hb
      rfl
    · rw [hset] at hb
      rcases getElem?_set_cases _ _ _ _ _ _ ha hb with ⟨hji, _⟩ | hba
      · subst hji
        rw [hl] at ha
        cases ha
        rw [hempty] at hs
        cases hs
      · exact hba
  · intro r d1 h
    rcases FindLine_cases d d1 address true r h with ⟨hd, _⟩ | ⟨hco, _⟩
    · exact hd
    · cases hco

/-- Witness of C16 (amended): ingress of a Request of `0x1000` on the
all-Empty directory: the line it allocates, Empty before, is Loading
after. -/
theorem empty_line_tokens_kept_or_reset_witness :
    (⟨LineState.LINE_LOADING, 32, 0, 7⟩ : Line).tokens = emptyLine.tokens ∨
      (⟨LineState.LINE_LOADING, 32, 0, 7⟩ : Line).state ≠ LineState.LINE_EMPTY ∨
      ((mkMsg MessageType.REQUEST 0 false).type = MessageType.REQUEST ∧
        FindLineConst emptyDir (mkMsg MessageType.REQUEST 0 false).address = some none ∧
        (⟨LineState.LINE_LOADING, 32, 0, 7⟩ : Line).tokens = 0 ∧
        (⟨LineState.LINE_LOADING, 32, 0, 7⟩ : Line).tag
          = tagOf emptyDir (mkMsg MessageType.REQUEST 0 false).address) :=
  (empty_line_tokens_kept_or_reset emptyDir envOk (mkMsg MessageType.REQUEST 0 false) 0
    ⟨[], 0⟩).1 true (mkMsg MessageType.REQUEST 0 false)
    { dirWith LineState.LINE_LOADING 0 with m_requests := [mkMsg MessageType.REQUEST 0 false] }
    (by decide) 3 emptyLine ⟨LineState.LINE_LOADING, 32, 0, 7⟩ (by decide) (by decide) rfl

/-- A directory that a list of actions leads to from a reachable directory is
reachable. -/
theorem run_reachable (acts : List Action) :
    ∀ d d1, Reachable d → run d acts = some d1 → Reachable d1 := by
  induction acts with
  | nil =>
    intro d d1 hr h
    simp only [run, Option.some.injEq] at h
    exact h ▸ hr
  | cons a rest ih =>
    intro d d1 hr h
    unfold run at h
    cases ha : applyAction d a with
    | none => simp [ha] at h
    | some d2 =>
      simp only [ha] at h
      refine ih d2 d1 ?_ h
      cases a with
      | arrive msg =>
        simp only [applyAction, Option.some.injEq] at ha
        exact ha ▸ Reachable.arrive d msg hr
      | incoming e =>
        simp only [applyAction, Option.map_eq_some', Prod.exists, exists_eq_right] at ha
        obtain ⟨r, ha⟩ := ha
        exact Reachable.doIncoming d d2 e r hr ha
      | requests e =>
        simp only [applyAction, Option.map_eq_some', Prod.exists, exists_eq_right] at ha
        obtain ⟨r, ha⟩ := ha
        exact Reachable.doRequests d d2 e r hr ha
      | completed e address data =>
        simp only [applyAction, Option.map_eq_some', Prod.exists, exists_eq_right] at ha
        obtain ⟨ok, ha⟩ := ha
        exact Reachable.onReadCompleted d d2 e address data ok hr ha
      | responses e =>
        simp only [applyAction, Option.map_eq_some', Prod.exists, exists_eq_right] at ha
        obtain ⟨r, ha⟩ := ha
        exact Reachable.doResponses d d2 e r hr ha

/-- The all-Empty small directory is a directory the constructor leaves. -/
theorem emptyDir_initial : Initial emptyDir := by
  refine ⟨by decide, ?_, rfl, rfl, rfl, rfl⟩
  intro l hl
  simp [emptyDir, smallDir, emptyLine] at hl
  rw [hl]

/-- The directory with the Full line of `0x1000` holding 1 token is
reachable. -/
theorem dirLoaded_reachable : Reachable dirLoaded :=
  run_reachable scenarioLoaded emptyDir dirLoaded (Reachable.init _ emptyDir_initial)
    (by decide)

/-- The directory in which the slot of an evicted line is Loading again is
reachable. -/
theorem dirReloaded_reachable : Reachable dirReloaded :=
  run_reachable scenarioReloaded dirLoaded dirReloaded dirLoaded_reachable (by decide)

/-- A full eviction leaves the stored count in the Empty line: the step
before the reload, with 1 token in the Empty line. -/
theorem dirStale_tokens_after_eviction :
    run dirLoaded [Action.arrive (mkMsg MessageType.EVICTION 3 false), Action.incoming envOk]
      = some { dirWith LineState.LINE_EMPTY 1 with
        sent := dirLoaded.sent, memOps := dirLoaded.memOps
        deleted := [mkMsg MessageType.EVICTION 1 false, mkMsg MessageType.EVICTION 3 false] } := by
  decide

/-- Every reachable state has its Loading lines at 0 tokens. -/
theorem reachable_loadingZero (d : RootDirectory) (hr : Reachable d) : loadingZero d := by
  refine Reachable.invariant loadingZero ?_ ?_ d hr
  · intro d hi l hl hs
    rw [hi.2.1 l hl] at hs
    cases hs
  · intro d d1 hinv ⟨_, hw⟩ l1 hl1 hs
    rcases hw with hl | ⟨msg, i, l, lnew, hl, hset, hw⟩
    · rw [hl] at hl1
      exact hinv l1 hl1 hs
    · rw [hset] at hl1
      rcases List.mem_or_eq_of_mem_set hl1 with hmem | heq
      · exact hinv l1 hmem hs
      · subst heq
        rcases hw with (⟨_, _, _, _, h1 | h1⟩ | ⟨_, hfull, _, h1⟩ | ⟨_, hfull, ⟨_, h1⟩ | h1⟩) |
          ⟨_, h1⟩
        · rw [h1]
        · rw [h1]
        · rw [h1] at hs
          simp only at hs
          rw [hfull] at hs
          cases hs
        · rw [h1] at hs
          simp only at hs
          rw [hfull] at hs
          cases hs
        · rw [h1] at hs
          cases hs
        · rw [h1] at hs
          cases hs

/-- With at least one cache, every reachable state has its Full lines below
`m_numCaches` tokens. -/
theorem reachable_fullBelow (d : RootDirectory) (hr : Reachable d) (hn : 1 ≤ d.m_numCaches) :
    fullBelow d := by
  have h := Reachable.invariant
    (fun d => 1 ≤ d.m_numCaches → (loadingZero d ∧ fullBelow d)) ?_ ?_ d hr
  · exact (h hn).2
  · intro d hi _
    constructor
    · intro l hl hs
      rw [hi.2.1 l hl] at hs
      cases hs
    · intro l hl hs
      rw [hi.2.1 l hl] at hs
      cases hs
  · intro d d1 hinv hsw hn1
    have hcfg := hsw.1.2.2.2
    have hn0 : 1 ≤ d.m_numCaches := by rw [← hcfg]; exact hn1
    obtain ⟨hlz, hfb⟩ := hinv hn0
    obtain ⟨_, hw⟩ := hsw
    have hlz1 : loadingZero d1 := by
      intro l1 hl1 hs
      rcases hw with hl | ⟨msg, i, l, lnew, hl, hset, hw⟩
      · rw [hl] at hl1
        exact hlz l1 hl1 hs
      · rw [hset] at hl1
        rcases List.mem_or_eq_of_mem_set hl1 with hmem | heq
        · exact hlz l1 hmem hs
        · subst heq
          rcases hw with (⟨_, _, _, _, h1 | h1⟩ | ⟨_, hfull, _, h1⟩ | ⟨_, hfull, ⟨_, h1⟩ | h1⟩) |
            ⟨_, h1⟩
          · rw [h1]
          · rw [h1]
          · rw [h1] at hs
            simp only at hs
            rw [hfull] at hs
            cases hs
          · rw [h1] at hs
            simp only at hs
            rw [hfull] at hs
            cases hs
          · rw [h1] at hs
            cases hs
          · rw [h1] at hs
            cases hs
    refine ⟨hlz1, ?_⟩
    intro l1 hl1 hs
    rw [hcfg]
    rcases hw with hl | ⟨msg, i, l, lnew, hl, hset, hw⟩
    · rw [hl] at hl1
      exact hfb l1 hl1 hs
    · rw [hset] at hl1
      rcases List.mem_or_eq_of_mem_set hl1 with hmem | heq
      · exact hfb l1 hmem hs
      · subst heq
        have hlm : l ∈ d.m_lines := List.getElem?_mem hl
        rcases hw with (⟨_, _, _, _, h1 | h1⟩ | ⟨_, hfull, _, h1⟩ | ⟨_, hfull, ⟨hlt, h1⟩ | h1⟩) |
          ⟨hload, h1⟩
        · rw [h1] at hs; cases hs
        · rw [h1] at hs; cases hs
        · rw [h1]; exact hn0
        · rw [h1]; exact hlt
        · rw [h1] at hs; cases hs
        · rw [h1]
          simp only
          rw [hlz l hlm hload]
          exact hn0

/-! ## Token invariants of the reachable states -/

/-- An index at which a line is read lies inside the table. -/
theorem lt_length_of_getElem? (ls : List Line) (i : Nat) (l : Line) (h : ls[i]? = some l) :
    i < ls.length := by
  rcases Nat.lt_or_ge i ls.length with h1 | h1
  · exact h1
  · rw [List.getElem?_eq_none h1] at h; cases h

/-- C17: with `m_numCaches` at least 1, in every state reachable from the
all-Empty table every Full line has fewer than `m_numCaches` tokens; and a
committing `DoIncoming` that accepts an Eviction whose tokens bring the line
of its address to `m_numCaches` leaves that line Empty. -/
theorem full_lines_below_total (d : RootDirectory) (hr : Reachable d)
    (hn : 1 ≤ d.m_numCaches) :
    (∀ l ∈ d.m_lines, l.state = LineState.LINE_FULL → l.tokens < d.m_numCaches) ∧
    (∀ (e : Env) (d1 : RootDirectory) (msg : Message) (rest : List Message) (i : Nat)
      (l : Line),
      d.m_incoming = msg :: rest → msg.type = MessageType.EVICTION →
      FindLineConst d msg.address = some (some i) → d.m_lines[i]? = some l →
      (msg.tokens + l.tokens) % UINT_RANGE = d.m_numCaches → e.committing = true →
      DoIncoming d e = some (Result.SUCCESS, d1) →
      d1.m_lines[i]? = some { l with state := LineState.LINE_EMPTY }) := by
  refine ⟨reachable_fullBelow d hr hn, ?_⟩
  intro e d1 msg rest i l hq ht hhit hl hsum hcm h
  obtain ⟨m0, rest0, ok, msg1, d0, hq0, ho, hr0, hd⟩ := DoIncoming_inv d d1 e Result.SUCCESS h
  rw [hq] at hq0
  cases hq0
  have hlines : d1.m_lines = d0.m_lines := by rw [hd]
  rw [hlines]
  have hi := lt_length_of_getElem? _ _ _ hl
  rcases OnMessageReceived_cases d d0 e msg msg1 ok ho with
    ⟨_, hok, _⟩ | ⟨_, ⟨ht2, _⟩ | ⟨ht2, _⟩ | ⟨ht2, _⟩ | ⟨_, i0, line, hhit0, hl0, hc⟩⟩
  · rw [hok] at hr0; simp at hr0
  · rcases ht2 with ht2 | ht2 <;> rw [ht] at ht2 <;> cases ht2
  · rw [ht] at ht2; cases ht2
  · rw [ht] at ht2; cases ht2
  · rw [hhit] at hhit0
    simp only [Option.some.injEq] at hhit0
    subst hhit0
    rw [hl] at hl0
    cases hl0
    obtain ⟨_, _, hc1 | hc1 | hc1 | hc1⟩ := caseEviction_cases _ _ _ _ _ _ _ _ hc
    · rw [hsum] at hc1
      exact absurd hc1.1 (Nat.lt_irrefl _)
    · rw [hc1.2.2.2.1] at hr0; simp at hr0
    · rw [hc1.2.2.2.2, hcm]
      simp [setLine, hi]
    · rw [hc1.2.2.2, hcm]
      simp [setLine, deleteMsg, hi]

/-- Witness of C17: after a first load and an Eviction with 1 token, the
Full line of `0x1000` has 1 token, fewer than the 4 caches. -/
theorem full_lines_below_total_witness :
    (⟨LineState.LINE_FULL, 32, 1, 7⟩ : Line) ∈ dirLoaded.m_lines ∧
      (⟨LineState.LINE_FULL, 32, 1, 7⟩ : Line).tokens < dirLoaded.m_numCaches :=
  ⟨by decide, (full_lines_below_total dirLoaded dirLoaded_reachable (by decide)).1
    ⟨LineState.LINE_FULL, 32, 1, 7⟩ (by decide) rfl⟩

/-- C20: in every state reachable from the all-Empty table every Loading
line has 0 tokens, whatever count the slot held when it was Empty; so when a
committing `DoResponses` sends the response of a load, the line is Full with
0 tokens and the tokens of the line and of the response add up to
`m_numCaches` (which fits the token field). -/
theorem loading_lines_hold_no_tokens (d : RootDirectory) (hr : Reachable d) :
    (∀ l ∈ d.m_lines, l.state = LineState.LINE_LOADING → l.tokens = 0) ∧
    (∀ (e : Env) (d1 : RootDirectory) (m : Message) (rest : List Message),
      d.m_responses = m :: rest → m.ignore = false → e.committing = true →
      d.m_numCaches < UINT_RANGE → DoResponses d e = some (Result.SUCCESS, d1) →
      ∃ (i : Nat) (l : Line) (m1 : Message), d.m_lines[i]? = some l ∧
        l.state = LineState.LINE_LOADING ∧
        d1.m_lines[i]? = some { l with state := LineState.LINE_FULL, tokens := 0 } ∧
        d1.sent = d.sent ++ [m1] ∧ m1.tokens = d.m_numCaches ∧
        ({ l with state := LineState.LINE_FULL, tokens := 0 } : Line).tokens + m1.tokens
          = d.m_numCaches) := by
  have hlz := reachable_loadingZero d hr
  refine ⟨hlz, ?_⟩
  intro e d1 m rest hq hign hcm hfit h
  obtain ⟨m0, rest0, hq0, hc⟩ := DoResponses_cases d d1 e Result.SUCCESS h
  rw [hq] at hq0
  cases hq0
  rcases hc with ⟨_, hr0, _⟩ | ⟨_, msg1, d0, msg2, hst, hm2, hc⟩
  · cases hr0
  · rcases hc with ⟨_, hr0, _⟩ | ⟨_, _, hd⟩
    · cases hr0
    · rw [hcm] at hd hm2
      rcases stampResponse_cases d d0 e m msg1 hst with
        ⟨hi, _⟩ | ⟨_, i, line, hl, hs, _, ⟨hcm2, _⟩ | ⟨_, hm1, hd0⟩⟩
      · rw [hign] at hi; cases hi
      · rw [hcm] at hcm2; cases hcm2
      · have hi := lt_length_of_getElem? _ _ _ hl
        have htok : line.tokens = 0 := hlz line (List.getElem?_mem hl) hs
        have hm2t : msg2.tokens = d.m_numCaches := by
          rw [hm2, hm1]
          simp only [if_true]
          exact Nat.mod_eq_of_lt hfit
        refine ⟨i, line, msg2, hl, hs, ?_, ?_, hm2t, ?_⟩
        · rw [hd, hd0]
          simp [setLine, hi, htok]
        · rw [hd, hd0]
          simp [setLine]
        · simp only [Nat.zero_add]
          exact hm2t

/-- Witness of C20: the slot that a full eviction left Empty with 1 token
stored is the Loading line of `0x1080`, with 0 tokens. -/
theorem loading_lines_hold_no_tokens_witness :
    (⟨LineState.LINE_LOADING, 33, 0, 7⟩ : Line) ∈ dirReloaded.m_lines ∧
      (⟨LineState.LINE_LOADING, 33, 0, 7⟩ : Line).tokens = 0 :=
  ⟨by decide, (loading_lines_hold_no_tokens dirReloaded dirReloaded_reachable).1
    ⟨LineState.LINE_LOADING, 33, 0, 7⟩ (by decide) rfl⟩

/-! ## One line per tag in a set -/

end COMA
